import Mathlib

/-!
Verification of the 800claw ERC-8004 Python SDK (`erc800claw/contracts.py`,
`erc800claw/client.py`) against its natural-language specification.

Python strings are modelled as lists of Unicode code points (`PyStr`), byte
strings as lists of naturals below 256.  JSON-serializable Python values are
modelled by the inductive `Json`; numbers are modelled as arbitrary-precision
integers (Python `int`).  IEEE-754 floats are outside this shallow embedding:
where the source performs float arithmetic (`get_reputation`, `give_feedback`)
the values are modelled as exact rationals.  External collaborators (the RPC
transport, HTTP fetches, address checksumming) are passed in as explicit
oracle functions returning `Except`, mirroring Python calls that can raise.
-/

namespace ERC8004

/-- Python strings are modelled as lists of Unicode code points. -/
abbrev PyStr := List Nat

/-- Convert a Lean string literal into the code-point model of a Python string. -/
def strToPy (s : String) : PyStr := s.data.map Char.toNat

/-- JSON-serializable Python values (`dict`, `list`, `str`, `int`, `bool`,
`None`).  Object fields are kept in insertion order, as Python dicts do.
A `float` arises only from parsing: it holds the literal text of a JSON
number with a fractional or exponent part, or of one of the constants
`NaN`/`Infinity`/`-Infinity`; Python converts that text with `float()`, and
no claim of this development depends on the floating value, only on which
inputs parse. -/
inductive Json where
  | null : Json
  | bool (b : Bool) : Json
  | int (n : Int) : Json
  | float (lit : PyStr) : Json
  | str (s : PyStr) : Json
  | arr (elems : List Json) : Json
  | obj (kvs : List (PyStr × Json)) : Json

/-! ### Decimal printing of integers (Python `repr` of `int`, used by `json.dumps`) -/

/-- Little-endian decimal digits of `n` (empty for `0`), with explicit fuel. -/
def natDigitsLE (fuel n : Nat) : List Nat :=
  match fuel with
  | 0 => []
  | f + 1 => if n = 0 then [] else n % 10 :: natDigitsLE f (n / 10)

/-- Value of a little-endian digit list. -/
def digitsValLE : List Nat → Nat
  | [] => 0
  | d :: ds => d + 10 * digitsValLE ds

/-- Decimal digit characters of a natural number, most significant first
(Python `repr` of a non-negative `int`). -/
def natRepr (n : Nat) : PyStr :=
  if n = 0 then [0x30] else (natDigitsLE n n).reverse.map (fun d => 0x30 + d)

/-- Decimal representation of a Python `int` (`repr`), used by `json.dumps`. -/
def intRepr (n : Int) : PyStr :=
  if n < 0 then 0x2D :: natRepr (-n).toNat else natRepr n.toNat

/-! ### String escaping (`json.dumps` with the default `ensure_ascii=True`) -/

/-- Hex digit character (lowercase, as emitted by Python `json`). -/
def hexDigitChar (d : Nat) : Nat :=
  if d < 10 then 0x30 + d else 0x61 + (d - 10)

/-- The four hex characters of a `\uXXXX` escape for a code point below `0x10000`. -/
def hex4Chars (c : Nat) : List Nat :=
  [hexDigitChar (c / 4096 % 16), hexDigitChar (c / 256 % 16),
   hexDigitChar (c / 16 % 16), hexDigitChar (c % 16)]

/-- Escape of a single code point inside a JSON string literal, following
Python `json.dumps` with `ensure_ascii=True`: printable ASCII other than
quote and backslash is emitted verbatim, the short escapes are used for
`\b \t \n \f \r`, every other code point becomes `\uXXXX` escapes
(a surrogate pair of escapes for astral code points). -/
def escapeChar (c : Nat) : List Nat :=
  if c = 0x22 then [0x5C, 0x22]
  else if c = 0x5C then [0x5C, 0x5C]
  else if c = 0x08 then [0x5C, 0x62]
  else if c = 0x09 then [0x5C, 0x74]
  else if c = 0x0A then [0x5C, 0x6E]
  else if c = 0x0C then [0x5C, 0x66]
  else if c = 0x0D then [0x5C, 0x72]
  else if c < 0x20 then 0x5C :: 0x75 :: hex4Chars c
  else if c ≤ 0x7E then [c]
  else if c < 0x10000 then 0x5C :: 0x75 :: hex4Chars c
  else
    0x5C :: 0x75 :: hex4Chars (0xD800 + (c - 0x10000) / 1024) ++
      (0x5C :: 0x75 :: hex4Chars (0xDC00 + (c - 0x10000) % 1024))

/-- Escape every character of a JSON string body. -/
def escapeString (s : PyStr) : PyStr := (s.map escapeChar).flatten

mutual

/-- Serialization of a `Json` value, following Python `json.dumps` with its
default separators `", "` and `": "` and `ensure_ascii=True`.  A parsed
`float` re-emits its literal text; no theorem of this development serializes
floats (`jsonWF` excludes them), as Python would print `repr(float(lit))`. -/
def dumpsV : Json → PyStr
  | .null => [0x6E, 0x75, 0x6C, 0x6C]
  | .bool true => [0x74, 0x72, 0x75, 0x65]
  | .bool false => [0x66, 0x61, 0x6C, 0x73, 0x65]
  | .int n => intRepr n
  | .float lit => lit
  | .str s => 0x22 :: escapeString s ++ [0x22]
  | .arr xs => 0x5B :: dumpsArr xs ++ [0x5D]
  | .obj kvs => 0x7B :: dumpsObj kvs ++ [0x7D]

/-- Comma-separated serialization of array elements. -/
def dumpsArr : List Json → PyStr
  | [] => []
  | [x] => dumpsV x
  | x :: y :: xs => dumpsV x ++ 0x2C :: 0x20 :: dumpsArr (y :: xs)

/-- Comma-separated serialization of object entries (`"key": value`). -/
def dumpsObj : List (PyStr × Json) → PyStr
  | [] => []
  | [(k, v)] => 0x22 :: escapeString k ++ 0x22 :: 0x3A :: 0x20 :: dumpsV v
  | (k, v) :: e :: kvs =>
      (0x22 :: escapeString k ++ 0x22 :: 0x3A :: 0x20 :: dumpsV v) ++
        0x2C :: 0x20 :: dumpsObj (e :: kvs)

end

/-! ### JSON parsing (`json.loads`)

The parser follows the Python `json` decoder: strings with the eight short
escapes and `\uXXXX` escapes (adjacent high/low surrogate escapes are
recombined into one astral code point), objects and arrays with whitespace
skipped where the Python scanner skips it, `true`/`false`/`null` literals,
numbers per the decoder's number grammar (integers exactly, floats as their
literal text), and the `NaN`/`Infinity`/`-Infinity` constants accepted by
the default `parse_constant`. -/

/-- JSON whitespace characters skipped by the Python scanner. -/
def isWsC (c : Nat) : Bool := c == 0x20 || c == 0x09 || c == 0x0A || c == 0x0D

/-- Skip leading JSON whitespace. -/
def skipWs (s : PyStr) : PyStr := s.dropWhile isWsC

/-- Decimal digit character test. -/
def isDigitC (c : Nat) : Bool := 0x30 ≤ c && c ≤ 0x39

/-- Value of a hex digit character (upper or lower case). -/
def hexVal (c : Nat) : Option Nat :=
  if 0x30 ≤ c ∧ c ≤ 0x39 then some (c - 0x30)
  else if 0x61 ≤ c ∧ c ≤ 0x66 then some (c - 0x61 + 10)
  else if 0x41 ≤ c ∧ c ≤ 0x46 then some (c - 0x41 + 10)
  else none

/-- Value of a four-hex-digit `\uXXXX` escape. -/
def hex4 (a b c d : Nat) : Option Nat :=
  match hexVal a, hexVal b, hexVal c, hexVal d with
  | some x, some y, some z, some w => some (x * 4096 + y * 256 + z * 16 + w)
  | _, _, _, _ => none

/-- Recombination of a surrogate-escape pair, as the Python scanner does. -/
def combineSurr (c1 c2 : Nat) : Nat := 0x10000 + (c1 - 0xD800) * 1024 + (c2 - 0xDC00)

/-- High-surrogate code point test. -/
def isHiSurr (c : Nat) : Bool := 0xD800 ≤ c && c ≤ 0xDBFF

/-- Low-surrogate code point test. -/
def isLoSurr (c : Nat) : Bool := 0xDC00 ≤ c && c ≤ 0xDFFF

/-- The eight single-character escapes accepted after a backslash. -/
def simpleEscape (e : Nat) : Option Nat :=
  if e = 0x22 then some 0x22
  else if e = 0x5C then some 0x5C
  else if e = 0x2F then some 0x2F
  else if e = 0x62 then some 0x08
  else if e = 0x66 then some 0x0C
  else if e = 0x6E then some 0x0A
  else if e = 0x72 then some 0x0D
  else if e = 0x74 then some 0x09
  else none

/-- Lookahead after a high-surrogate escape: when the input continues with a
`\uXXXX` escape of a low surrogate, return that low surrogate (the escape
occupies the first six characters of the input). -/
def surrPairEscape (s : PyStr) : Option Nat :=
  match s with
  | 0x5C :: 0x75 :: g1 :: g2 :: g3 :: g4 :: _ =>
    match hex4 g1 g2 g3 g4 with
    | some c2 => if isLoSurr c2 then some c2 else none
    | none => none
  | _ => none

/-- Parse the body of a JSON string literal after its opening quote, returning
the decoded code points and the input after the closing quote.  Unescaped
control characters are rejected (the decoder's `strict` default); a high
surrogate `\uXXXX` escape immediately followed by a low surrogate escape is
combined into a single astral code point. -/
def parseStringBody : Nat → PyStr → Except Unit (PyStr × PyStr)
  | 0, _ => .error ()
  | _ + 1, [] => .error ()
  | fuel + 1, c :: rest =>
    if c = 0x22 then .ok ([], rest)
    else if c = 0x5C then
      match rest with
      | [] => .error ()
      | e :: rest2 =>
        if e = 0x75 then
          match rest2 with
          | h1 :: h2 :: h3 :: h4 :: rest3 =>
            match hex4 h1 h2 h3 h4 with
            | none => .error ()
            | some c1 =>
              if isHiSurr c1 then
                match surrPairEscape rest3 with
                | some c2 =>
                  (fun p => (combineSurr c1 c2 :: p.1, p.2)) <$>
                    parseStringBody fuel (rest3.drop 6)
                | none => (fun p => (c1 :: p.1, p.2)) <$> parseStringBody fuel rest3
              else (fun p => (c1 :: p.1, p.2)) <$> parseStringBody fuel rest3
          | _ => .error ()
        else
          match simpleEscape e with
          | some d => (fun p => (d :: p.1, p.2)) <$> parseStringBody fuel rest2
          | none => .error ()
    else if c < 0x20 then .error ()
    else (fun p => (c :: p.1, p.2)) <$> parseStringBody fuel rest

/-- Value of most-significant-first decimal digit characters. -/
def digitsToNatMSB (ds : List Nat) : Nat := ds.foldl (fun a c => a * 10 + (c - 0x30)) 0

/-- Negate a parsed magnitude when a leading minus sign was consumed. -/
def condNeg (neg : Bool) (n : Nat) : Int := if neg then -(n : Int) else (n : Int)

/-- Fractional part of the number grammar, `\.[0-9]+`: consumed only when a
digit follows the dot (the decoder backtracks otherwise); returns the
consumed characters and the remaining input. -/
def parseFrac : PyStr → Option (PyStr × PyStr)
  | [] => none
  | c :: rest =>
    if c = 0x2E then
      match rest with
      | d :: rest2 =>
        if isDigitC d then
          some (0x2E :: d :: rest2.takeWhile isDigitC, rest2.dropWhile isDigitC)
        else none
      | [] => none
    else none

/-- Exponent part of the number grammar, `[eE][-+]?[0-9]+`: consumed only
when a digit follows the marker and optional sign, as the decoder backtracks
otherwise. -/
def parseExp : PyStr → Option (PyStr × PyStr)
  | [] => none
  | c :: rest =>
    if c = 0x65 ∨ c = 0x45 then
      match rest with
      | s :: d :: rest2 =>
        if (s = 0x2B ∨ s = 0x2D) ∧ isDigitC d then
          some (c :: s :: d :: rest2.takeWhile isDigitC, rest2.dropWhile isDigitC)
        else if isDigitC s then
          some (c :: (s :: d :: rest2).takeWhile isDigitC, (s :: d :: rest2).dropWhile isDigitC)
        else none
      | [d] => if isDigitC d then some ([c, d], []) else none
      | [] => none
    else none

/-- Prepend the minus sign to a number literal when it was consumed. -/
def numLit (neg : Bool) (body : PyStr) : PyStr := if neg then 0x2D :: body else body

/-- Finish a number after its integer digits: try the fractional and exponent
parts; an integer results only when neither is present, a float literal
otherwise, exactly as the decoder's `NUMBER_RE` match decides. -/
def parseNumTail (neg : Bool) (intDigits : PyStr) (r : PyStr) : Except Unit (Json × PyStr) :=
  match parseFrac r with
  | some (fr, r2) =>
    match parseExp r2 with
    | some (ex, r3) => .ok (.float (numLit neg (intDigits ++ fr ++ ex)), r3)
    | none => .ok (.float (numLit neg (intDigits ++ fr)), r2)
  | none =>
    match parseExp r with
    | some (ex, r2) => .ok (.float (numLit neg (intDigits ++ ex)), r2)
    | none => .ok (.int (condNeg neg (digitsToNatMSB intDigits)), r)

/-- Parse the digits of a JSON number after the optional minus sign, per the
decoder's number grammar `(0|[1-9][0-9]*)(\.[0-9]+)?([eE][-+]?[0-9]+)?` (a
leading `0` takes no further integer digits). -/
def parseNumberCore (neg : Bool) (s : PyStr) : Except Unit (Json × PyStr) :=
  match s with
  | c :: rest =>
    if c = 0x30 then parseNumTail neg [c] rest
    else if isDigitC c then
      parseNumTail neg ((c :: rest).takeWhile isDigitC) ((c :: rest).dropWhile isDigitC)
    else .error ()
  | [] => .error ()

/-- Parse a JSON number (optional minus sign, then digits). -/
def parseNumber : PyStr → Except Unit (Json × PyStr)
  | 0x2D :: s1 => parseNumberCore true s1
  | s1 => parseNumberCore false s1

/-- Input whose head cannot extend a preceding number literal (not a digit
and not `.`/`e`/`E`); everything a serializer emits after a number. -/
def numSafe : PyStr → Bool
  | [] => true
  | c :: _ => !isDigitC c && c != 0x2E && c != 0x65 && c != 0x45

/-- Python-dict insertion into an association list: an existing key keeps its
original position and takes the new value, a new key is appended. -/
def dictInsert : List (PyStr × Json) → PyStr → Json → List (PyStr × Json)
  | [], k, v => [(k, v)]
  | (k1, v1) :: rest, k, v =>
    if k1 = k then (k1, v) :: rest else (k1, v1) :: dictInsert rest k v

/-- Build a Python dict from parsed key/value pairs (duplicate keys keep the
first position and the last value, as `dict(pairs)` does). -/
def mkPyDict (pairs : List (PyStr × Json)) : List (PyStr × Json) :=
  pairs.foldl (fun acc kv => dictInsert acc kv.1 kv.2) []

mutual

/-- Parse one JSON value at the head of the input (the Python scanner's
`scan_once`).  The fuel argument only bounds recursion depth; each recursive
call consumes at least one input character, so `length + 1` fuel suffices. -/
def parseValue : Nat → PyStr → Except Unit (Json × PyStr)
  | 0, _ => .error ()
  | fuel + 1, s =>
    match s with
    | [] => .error ()
    | c :: rest =>
      if c = 0x22 then (fun p => (Json.str p.1, p.2)) <$> parseStringBody (rest.length + 1) rest
      else if c = 0x7B then
        match skipWs rest with
        | 0x7D :: r => .ok (Json.obj [], r)
        | s1 => (fun p => (Json.obj (mkPyDict p.1), p.2)) <$> parseObjLoop fuel s1
      else if c = 0x5B then
        match skipWs rest with
        | 0x5D :: r => .ok (Json.arr [], r)
        | s1 => (fun p => (Json.arr p.1, p.2)) <$> parseArrLoop fuel s1
      else if c = 0x74 then
        match rest with
        | 0x72 :: 0x75 :: 0x65 :: r => .ok (Json.bool true, r)
        | _ => .error ()
      else if c = 0x66 then
        match rest with
        | 0x61 :: 0x6C :: 0x73 :: 0x65 :: r => .ok (Json.bool false, r)
        | _ => .error ()
      else if c = 0x6E then
        match rest with
        | 0x75 :: 0x6C :: 0x6C :: r => .ok (Json.null, r)
        | _ => .error ()
      else if c = 0x4E then
        match rest with
        | 0x61 :: 0x4E :: r => .ok (Json.float [0x4E, 0x61, 0x4E], r)
        | _ => .error ()
      else if c = 0x49 then
        match rest with
        | 0x6E :: 0x66 :: 0x69 :: 0x6E :: 0x69 :: 0x74 :: 0x79 :: r =>
          .ok (Json.float [0x49, 0x6E, 0x66, 0x69, 0x6E, 0x69, 0x74, 0x79], r)
        | _ => .error ()
      else if c = 0x2D ∨ isDigitC c then
        if c = 0x2D then
          match rest with
          | 0x49 :: rest2 =>
            match rest2 with
            | 0x6E :: 0x66 :: 0x69 :: 0x6E :: 0x69 :: 0x74 :: 0x79 :: r =>
              .ok (Json.float [0x2D, 0x49, 0x6E, 0x66, 0x69, 0x6E, 0x69, 0x74, 0x79], r)
            | _ => .error ()
          | _ => parseNumber (c :: rest)
        else parseNumber (c :: rest)
      else .error ()

/-- Parse the elements of a non-empty JSON array, positioned at the first
element, through the closing bracket. -/
def parseArrLoop : Nat → PyStr → Except Unit (List Json × PyStr)
  | 0, _ => .error ()
  | fuel + 1, s =>
    match parseValue fuel s with
    | .error _ => .error ()
    | .ok (v, r) =>
      match skipWs r with
      | 0x5D :: r2 => .ok ([v], r2)
      | 0x2C :: r2 =>
        (fun p => (v :: p.1, p.2)) <$> parseArrLoop fuel (skipWs r2)
      | _ => .error ()

/-- Parse the entries of a non-empty JSON object, positioned at the opening
quote of the first key, through the closing brace. -/
def parseObjLoop : Nat → PyStr → Except Unit (List (PyStr × Json) × PyStr)
  | 0, _ => .error ()
  | fuel + 1, s =>
    match s with
    | 0x22 :: s1 =>
      match parseStringBody (s1.length + 1) s1 with
      | .error _ => .error ()
      | .ok (key, r) =>
        match skipWs r with
        | 0x3A :: r2 =>
          match parseValue fuel (skipWs r2) with
          | .error _ => .error ()
          | .ok (v, r4) =>
            match skipWs r4 with
            | 0x7D :: r6 => .ok ([(key, v)], r6)
            | 0x2C :: r6 =>
              match skipWs r6 with
              | 0x22 :: r8 =>
                (fun p => ((key, v) :: p.1, p.2)) <$> parseObjLoop fuel (0x22 :: r8)
              | _ => .error ()
            | _ => .error ()
        | _ => .error ()
    | _ => .error ()

end

/-- Model of `json.loads`: skip leading whitespace, parse one value, and
require only whitespace to remain ("Extra data" otherwise). -/
def loads (s : PyStr) : Except Unit Json :=
  let s1 := skipWs s
  match parseValue (s1.length + 1) s1 with
  | .error _ => .error ()
  | .ok (v, rest) => if skipWs rest = [] then .ok v else .error ()

/-! ### Base64 (`base64.b64encode` / `base64.b64decode`) -/

/-- Character of a six-bit value in the standard base64 alphabet. -/
def b64CharEncode (v : Nat) : Nat :=
  if v < 26 then 65 + v
  else if v < 52 then 97 + (v - 26)
  else if v < 62 then 48 + (v - 52)
  else if v = 62 then 43 else 47

/-- Standard base64 encoding of a byte string, with `=` padding. -/
def b64encode : List Nat → List Nat
  | a :: b :: c :: rest =>
      b64CharEncode (a / 4) :: b64CharEncode (a % 4 * 16 + b / 16) ::
        b64CharEncode (b % 16 * 4 + c / 64) :: b64CharEncode (c % 64) :: b64encode rest
  | [a, b] =>
      [b64CharEncode (a / 4), b64CharEncode (a % 4 * 16 + b / 16), b64CharEncode (b % 16 * 4), 0x3D]
  | [a] => [b64CharEncode (a / 4), b64CharEncode (a % 4 * 16), 0x3D, 0x3D]
  | [] => []

/-- Membership in the standard base64 alphabet. -/
def isB64AlphaC (c : Nat) : Bool :=
  (65 ≤ c && c ≤ 90) || (97 ≤ c && c ≤ 122) || (48 ≤ c && c ≤ 57) || c == 43 || c == 47

/-- Six-bit value of a base64 alphabet character. -/
def b64CharDecode (c : Nat) : Nat :=
  if 65 ≤ c ∧ c ≤ 90 then c - 65
  else if 97 ≤ c ∧ c ≤ 122 then c - 97 + 26
  else if 48 ≤ c ∧ c ≤ 57 then c - 48 + 52
  else if c = 43 then 62 else 63

/-- Bytes already emitted for a partial quad of six-bit values, as `binascii`
writes them eagerly (two values give one byte, three give two). -/
def b64Flush : List Nat → List Nat
  | [w, x] => [w * 4 + x / 16]
  | [w, x, y] => [w * 4 + x / 16, x % 16 * 16 + y / 4]
  | _ => []

/-- The quad machine of `binascii.a2b_base64` with its default non-strict
mode, processing one character at a time: characters outside the alphabet
are skipped; a data character joins the current quad (a full quad emits
three bytes) and resets the padding count; a padding character is counted
only when the current quad has at least two values, and decoding ends
successfully — discarding the remaining input — once the quad and padding
counts reach four; at the end of input a non-empty quad is an error
(`Incorrect padding`, or the one-more-than-a-multiple-of-four error for a
single value).  The first argument is recursion fuel, one more than the
number of characters at the call site. -/
def b64Aux : Nat → PyStr → List Nat → Nat → Except Unit (List Nat)
  | 0, _, _, _ => .error ()
  | _+1, [], quad, _ => if quad.length = 0 then .ok [] else .error ()
  | fuel+1, c :: rest, quad, pads =>
    if c = 0x3D then
      if 2 ≤ quad.length then
        if 4 ≤ quad.length + (pads + 1) then .ok (b64Flush quad)
        else b64Aux fuel rest quad (pads + 1)
      else b64Aux fuel rest quad pads
    else if isB64AlphaC c then
      match quad with
      | [w, x, y] =>
        (fun out => (w * 4 + x / 16) :: (x % 16 * 16 + y / 4) ::
          (y % 4 * 64 + b64CharDecode c) :: out) <$> b64Aux fuel rest [] 0
      | _ => b64Aux fuel rest (quad ++ [b64CharDecode c]) 0
    else b64Aux fuel rest quad pads

/-- Model of `base64.b64decode` with its default `validate=False`, which runs
`binascii.a2b_base64` in non-strict mode. -/
def b64decodePy (s : PyStr) : Except Unit (List Nat) :=
  b64Aux (s.length + 1) s [] 0

/-! ### UTF-8 (`str.encode` / `bytes.decode`)

`utf8EncodeChar` is applied in this development only to ASCII output of
`dumpsV` (Python `str.encode` would raise on surrogates; `json.dumps` with
`ensure_ascii=True` never produces them). -/

/-- UTF-8 bytes of one code point. -/
def utf8EncodeChar (c : Nat) : List Nat :=
  if c < 0x80 then [c]
  else if c < 0x800 then [0xC0 + c / 64, 0x80 + c % 64]
  else if c < 0x10000 then [0xE0 + c / 4096, 0x80 + c / 64 % 64, 0x80 + c % 64]
  else [0xF0 + c / 0x40000, 0x80 + c / 4096 % 64, 0x80 + c / 64 % 64, 0x80 + c % 64]

/-- UTF-8 encoding of a string. -/
def utf8Encode (s : PyStr) : List Nat := (s.map utf8EncodeChar).flatten

/-- Continuation byte test. -/
def isCont (b : Nat) : Bool := 0x80 ≤ b && b ≤ 0xBF

/-- Valid second byte after a three-byte lead (excludes overlong forms and
surrogates, as Python's strict UTF-8 decoder does). -/
def utf8Cont3Ok (b b2 : Nat) : Bool :=
  if b = 0xE0 then 0xA0 ≤ b2 && b2 ≤ 0xBF
  else if b = 0xED then 0x80 ≤ b2 && b2 ≤ 0x9F
  else isCont b2

/-- Valid second byte after a four-byte lead (excludes overlong forms and
code points above `0x10FFFF`). -/
def utf8Cont4Ok (b b2 : Nat) : Bool :=
  if b = 0xF0 then 0x90 ≤ b2 && b2 ≤ 0xBF
  else if b = 0xF4 then 0x80 ≤ b2 && b2 ≤ 0x8F
  else isCont b2

/-- Model of `bytes.decode` for UTF-8 with the default strict error handler.
The first argument is recursion fuel; every call site passes one more than
the number of bytes, which suffices since each decoded code point consumes
at least one byte. -/
def utf8Decode : Nat → List Nat → Except Unit PyStr
  | 0, _ => .error ()
  | _+1, [] => .ok []
  | fuel+1, b :: rest =>
    if b < 0x80 then (fun t => b :: t) <$> utf8Decode fuel rest
    else if 0xC2 ≤ b && b ≤ 0xDF then
      match rest with
      | b2 :: rest2 =>
        if isCont b2 then
          (fun t => ((b - 0xC0) * 64 + (b2 - 0x80)) :: t) <$> utf8Decode fuel rest2
        else .error ()
      | _ => .error ()
    else if 0xE0 ≤ b && b ≤ 0xEF then
      match rest with
      | b2 :: b3 :: rest2 =>
        if utf8Cont3Ok b b2 && isCont b3 then
          (fun t => ((b - 0xE0) * 4096 + (b2 - 0x80) * 64 + (b3 - 0x80)) :: t) <$>
            utf8Decode fuel rest2
        else .error ()
      | _ => .error ()
    else if 0xF0 ≤ b && b ≤ 0xF4 then
      match rest with
      | b2 :: b3 :: b4 :: rest2 =>
        if utf8Cont4Ok b b2 && isCont b3 && isCont b4 then
          (fun t =>
            ((b - 0xF0) * 0x40000 + (b2 - 0x80) * 4096 + (b3 - 0x80) * 64 + (b4 - 0x80)) :: t) <$>
            utf8Decode fuel rest2
        else .error ()
      | _ => .error ()
    else .error ()

/-! ### The data-URI codec (`create_data_uri` / `parse_data_uri`) -/

/-- The fixed scheme marker `data:application/json;base64,`. -/
def dataUriScheme : PyStr := strToPy "data:application/json;base64,"

/-- The distinct failure kinds of `parse_data_uri`.  In the source these are
a `ValueError` raised for a bad scheme marker, `binascii.Error` from
`base64.b64decode`, `UnicodeDecodeError` from `bytes.decode`, and
`json.JSONDecodeError` from `json.loads`; the spec names the first
`InvalidDataUriError` and the last `MalformedJsonError`. -/
inductive DataUriError where
  | invalidUri : DataUriError
  | base64Error : DataUriError
  | unicodeError : DataUriError
  | malformedJson : DataUriError
deriving DecidableEq

/-- Model of `create_data_uri`: serialize to JSON, UTF-8 encode, base64
encode, and prepend the fixed scheme marker. -/
def create_data_uri (metadata : Json) : PyStr :=
  dataUriScheme ++ b64encode (utf8Encode (dumpsV metadata))

/-- Model of `parse_data_uri`: check the scheme marker, then base64-decode,
UTF-8-decode and JSON-parse the payload, with each failure kind surfaced as
the corresponding exception. -/
def parse_data_uri (s : PyStr) : Except DataUriError Json :=
  if dataUriScheme.isPrefixOf s then
    match b64decodePy (s.drop dataUriScheme.length) with
    | .error _ => .error .base64Error
    | .ok bytes =>
      match utf8Decode (bytes.length + 1) bytes with
      | .error _ => .error .unicodeError
      | .ok chars =>
        match loads chars with
        | .error _ => .error .malformedJson
        | .ok v => .ok v
  else .error .invalidUri

/-! ### Well-formedness of model values as images of Python objects -/

/-- No high surrogate immediately followed by a low surrogate.  A Python
string may contain such a pair of code points, but its `json.dumps` escape is
reparsed by `json.loads` as a single astral code point. -/
def noSurrPair : PyStr → Bool
  | a :: b :: r => !(isHiSurr a && isLoSurr b) && noSurrPair (b :: r)
  | _ => true

/-- Code points of a Python string are below `0x110000`. -/
def strWF (s : PyStr) : Bool := s.all (fun c => c < 0x110000) && noSurrPair s

/-- Key lists of Python dicts contain no duplicates. -/
def nodupKeysB : List PyStr → Bool
  | [] => true
  | k :: ks => !(ks.contains k) && nodupKeysB ks

mutual

/-- A `Json` value is the image of a Python metadata object of this
development's integer universe: strings hold valid code points without
adjacent surrogate pairs, object keys are distinct, and parsed float
literals — whose serialization Python would print via `repr` — lie outside
the fragment. -/
def jsonWF : Json → Bool
  | .null => true
  | .bool _ => true
  | .int _ => true
  | .float _ => false
  | .str s => strWF s
  | .arr xs => jsonWFList xs
  | .obj kvs => nodupKeysB (kvs.map Prod.fst) && jsonWFObj kvs

/-- Well-formedness of a list of array elements. -/
def jsonWFList : List Json → Bool
  | [] => true
  | x :: xs => jsonWF x && jsonWFList xs

/-- Well-formedness of object entries. -/
def jsonWFObj : List (PyStr × Json) → Bool
  | [] => true
  | (k, v) :: kvs => strWF k && jsonWF v && jsonWFObj kvs

end

mutual

/-- Fuel needed to parse the serialization of a value. -/
def sizeV : Json → Nat
  | .arr xs => 1 + sizeArr xs
  | .obj kvs => 1 + sizeObj kvs
  | _ => 1

/-- Fuel needed to parse serialized array elements. -/
def sizeArr : List Json → Nat
  | [] => 0
  | x :: xs => 1 + sizeV x + sizeArr xs

/-- Fuel needed to parse serialized object entries. -/
def sizeObj : List (PyStr × Json) → Nat
  | [] => 0
  | (_, v) :: kvs => 1 + sizeV v + sizeObj kvs

end

/-! ### Network registry (`contracts.py`) -/

/-- Contract addresses of a configured network. -/
structure ContractAddresses where
  identity_registry : String
  reputation_registry : String
  validation_registry : String
deriving DecidableEq

/-- A configured network entry of the `NETWORKS` table. -/
structure NetworkConfig where
  chain_id : Nat
  name : String
  rpc : String
  explorer : String
  contracts : ContractAddresses
deriving DecidableEq

/-- The static `NETWORKS` table (insertion-ordered, as a Python dict). -/
def NETWORKS : List (String × NetworkConfig) :=
  [("mainnet",
    { chain_id := 1, name := "Ethereum Mainnet", rpc := "https://eth.drpc.org",
      explorer := "https://etherscan.io",
      contracts :=
        { identity_registry := "0x8004A169FB4a3325136EB29fA0ceB6D2e539a432",
          reputation_registry := "0x8004BAa17C55a88189AE136b182e5fdA19dE9b63",
          validation_registry := "0x0000000000000000000000000000000000000000" } }),
   ("sepolia",
    { chain_id := 11155111, name := "Sepolia Testnet",
      rpc := "https://ethereum-sepolia-rpc.publicnode.com",
      explorer := "https://sepolia.etherscan.io",
      contracts :=
        { identity_registry := "0x8004A818BFB912233c491871b3d84c89A494BD9e",
          reputation_registry := "0x8004B663056A597Dffe9eCcC1965A193B7388713",
          validation_registry := "0x0000000000000000000000000000000000000000" } })]

/-- The comma-separated list of configured names used in the error message. -/
def availableNetworks : String := String.intercalate ", " (NETWORKS.map Prod.fst)

/-- Lowercasing of one character (Python `str.lower`, restricted to the
ASCII range relevant to network names). -/
def pyLowerChar (c : Char) : Char :=
  if 'A' ≤ c ∧ c ≤ 'Z' then Char.ofNat (c.toNat + 32) else c

/-- Model of Python `str.lower`. -/
def pyLower (s : String) : String := ⟨s.data.map pyLowerChar⟩

/-- Model of `get_network`: case-insensitive lookup, raising `ValueError`
(modelled as `Except.error` with the message text) for unknown names. -/
def get_network (network_name : String) : Except String NetworkConfig :=
  match NETWORKS.lookup (pyLower network_name) with
  | some cfg => .ok cfg
  | none =>
    .error ("Unknown network: " ++ network_name ++ ". Available: " ++ availableNetworks)

/-- Model of `get_contracts`, a projection of `get_network`. -/
def get_contracts (network_name : String) : Except String ContractAddresses :=
  (get_network network_name).map NetworkConfig.contracts

/-! ### Read client (`client.py`)

Contract view calls, address checksumming and HTTP fetches are modelled as
oracle functions returning `Except String`, an error being any raised Python
exception (contract revert or transport failure alike). -/

/-- An `agent_id` argument, which the source accepts as `int` or `str`. -/
inductive AgentIdArg where
  | int (n : Int) : AgentIdArg
  | str (s : String) : AgentIdArg

/-- Strip leading and trailing whitespace characters (Python `str.strip`,
restricted to the ASCII whitespace relevant here). -/
def pyStrip (cs : List Char) : List Char :=
  ((cs.dropWhile Char.isWhitespace).reverse.dropWhile Char.isWhitespace).reverse

/-- Model of Python `int(str)`: strip whitespace, optional sign, decimal
digits (underscore grouping is not modelled). -/
def pyInt (s : String) : Except String Int :=
  let t := pyStrip s.data
  let core : Bool × List Char :=
    match t with
    | '-' :: r => (true, r)
    | '+' :: r => (false, r)
    | r => (false, r)
  if core.2 ≠ [] ∧ core.2.all Char.isDigit then
    .ok (condNeg core.1 (core.2.foldl (fun a c => a * 10 + (c.toNat - 48)) 0))
  else .error ("invalid literal for int with base 10: " ++ s)

/-- Conversion applied by `int(agent_id)` in the client methods. -/
def pyIntOf : AgentIdArg → Except String Int
  | .int n => .ok n
  | .str s => pyInt s

/-- Model of `agent_exists`: the conversion and the `ownerOf` view call are
both inside the `try`, and any failure yields `False`. -/
def agent_exists (agent_id : AgentIdArg) (ownerOf : Int → Except String String) : Bool :=
  match pyIntOf agent_id >>= ownerOf with
  | .ok _ => true
  | .error _ => false

/-- The agent record assembled by `get_agent`. -/
structure AgentRecord where
  agent_id : Int
  token_uri : Option String
  owner : String
  metadata : Option Json
  explorer_url : String

/-- The metadata-resolution block of `get_agent`: decode a data URI locally
(any parse failure swallowed), or fetch an `http`/`ipfs://` URI via the HTTP
oracle (a non-ok response or JSON parse failure is an oracle error, also
swallowed); any other scheme leaves metadata absent. -/
def resolveMetadata (token_uri : String) (httpGet : String → Except String Json) : Option Json :=
  if ("data:application/json;base64,").isPrefixOf token_uri then
    match parse_data_uri (strToPy token_uri) with
    | .ok m => some m
    | .error _ => none
  else if ("http").isPrefixOf token_uri ∨ ("ipfs://").isPrefixOf token_uri then
    let url :=
      if ("ipfs://").isPrefixOf token_uri then "https://ipfs.io/ipfs/" ++ token_uri.drop 7
      else token_uri
    match httpGet url with
    | .ok m => some m
    | .error _ => none
  else none

/-- Model of `get_agent`.  `int(agent_id)` runs before any guarded call, so
its failure propagates (`Except.error`); an `ownerOf` failure returns `none`
(agent not found); a `tokenURI` failure or empty string leaves `token_uri`
absent; metadata resolution is best-effort. -/
def get_agent (agent_id : AgentIdArg) (explorer identity_registry : String)
    (ownerOf tokenURI : Int → Except String String)
    (httpGet : String → Except String Json) : Except String (Option AgentRecord) :=
  match pyIntOf agent_id with
  | .error e => .error e
  | .ok aid =>
    match ownerOf aid with
    | .error _ => .ok none
    | .ok owner =>
      let token_uri : Option String :=
        match tokenURI aid with
        | .ok uri => if uri ≠ "" then some uri else none
        | .error _ => none
      let metadata : Option Json :=
        match token_uri with
        | some uri => resolveMetadata uri httpGet
        | none => none
      .ok (some
        { agent_id := aid, token_uri := token_uri, owner := owner, metadata := metadata,
          explorer_url := explorer ++ "/nft/" ++ identity_registry ++ "/" ++ toString aid })

/-- The filter echo carried by every reputation summary. -/
structure RepFilters where
  client_addresses : List String
  tag1 : String
  tag2 : String
deriving DecidableEq

/-- The reputation summary assembled by `get_reputation`.  The Python dict
carries a `note` key only in the empty-reviewers case and an `error` key only
in the failure case; both are modelled as optional fields.  `average_score`
is a Python float, modelled as an exact rational. -/
structure RepSummary where
  agent_id : Int
  feedback_count : Int
  average_score : Option ℚ
  decimals : Nat
  raw_value : Int
  note : Option String
  error : Option String
  filters : RepFilters
deriving DecidableEq

/-- Model of `get_reputation`: an empty reviewer list short-circuits to a
zero summary with an explanatory note before any oracle is consulted;
otherwise the addresses are checksummed and the `getSummary` view call is
issued, any failure being converted into a zero summary carrying the error
text. -/
def get_reputation (aid : Int) (client_addresses : Option (List String)) (tag1 tag2 : String)
    (toChecksum : String → Except String String)
    (getSummary : Int → List String → String → String → Except String (Int × Int × Nat)) :
    RepSummary :=
  let addresses := client_addresses.getD []
  if addresses.isEmpty then
    { agent_id := aid, feedback_count := 0, average_score := none, decimals := 0, raw_value := 0,
      note := some "Provide client_addresses to query reputation from specific reviewers",
      error := none, filters := ⟨addresses, tag1, tag2⟩ }
  else
    match addresses.mapM toChecksum >>= fun cs => getSummary aid cs tag1 tag2 with
    | .ok (count, summary_value, decimals) =>
      { agent_id := aid, feedback_count := count,
        average_score := some ((summary_value : ℚ) / 10 ^ decimals),
        decimals := decimals, raw_value := summary_value, note := none, error := none,
        filters := ⟨addresses, tag1, tag2⟩ }
    | .error e =>
      { agent_id := aid, feedback_count := 0, average_score := none, decimals := 0,
        raw_value := 0, note := none, error := some e, filters := ⟨addresses, tag1, tag2⟩ }

/-! ### Write client (`client.py`) -/

/-- Python `round` on the exact value: round half to even. -/
def pyRound (q : ℚ) : Int :=
  let n := ⌊q⌋
  let r := q - n
  if r < 1 / 2 then n
  else if 1 / 2 < r then n + 1
  else if n % 2 = 0 then n else n + 1

/-- Hex decoding of byte pairs (`bytes.fromhex`; the space grouping Python
additionally allows is not modelled). -/
def hexPairs : List Char → Except Unit (List Nat)
  | [] => .ok []
  | [_] => .error ()
  | a :: b :: rest =>
    match hexVal a.toNat, hexVal b.toNat with
    | some x, some y => (fun t => (x * 16 + y) :: t) <$> hexPairs rest
    | _, _ => .error ()

/-- Model of `bytes.fromhex`. -/
def bytesFromHex (s : String) : Except Unit (List Nat) := hexPairs s.data

/-- The `feedbackHash` argument encoding: an absent hash becomes 32 zero
bytes; a present hash has every `0x` occurrence removed and is hex-decoded. -/
def fbHashBytes : Option String → Except Unit (List Nat)
  | none => .ok (List.replicate 32 0)
  | some h => bytesFromHex (h.replace "0x" "")

/-- The argument tuple encoded for the `giveFeedback` contract call. -/
structure FeedbackCall where
  agentId : Int
  value : Int
  valueDecimals : Nat
  tag1 : String
  tag2 : String
  endpoint : String
  feedbackURI : String
  feedbackHash : List Nat
deriving DecidableEq

/-- Model of the argument encoding of `give_feedback`: the decimal score is
scaled by `10 ^ decimals` and rounded (Python `round`, half to even) to the
fixed-point integer sent on chain. -/
def give_feedback_call (aid : Int) (value : ℚ) (decimals : Nat)
    (tag1 tag2 endpoint feedback_uri : String) (feedback_hash : Option String) :
    Except Unit FeedbackCall :=
  match fbHashBytes feedback_hash with
  | .error e => .error e
  | .ok fb =>
    .ok { agentId := aid, value := pyRound (value * 10 ^ decimals), valueDecimals := decimals,
          tag1 := tag1, tag2 := tag2, endpoint := endpoint, feedbackURI := feedback_uri,
          feedbackHash := fb }

/-- A receipt log entry; topics are modelled by their 32-byte values as
naturals (the source compares and decodes their hex strings, which is
injective on byte strings). -/
structure LogEntry where
  topics : List Nat
deriving DecidableEq

/-- The fixed ERC-721 `Transfer(address,address,uint256)` event signature. -/
def transferTopic : Nat :=
  0xddf252ad1be2c89b69c2b068fc378daa952ba7f163c4a11628f55a4df523b3ef

/-- A log matches when its first topic is the transfer signature and it has
at least four topics (the guard of the scanning loop in `register`). -/
def logMatchesTransfer (l : LogEntry) : Bool :=
  !l.topics.isEmpty && l.topics.headD 0 == transferTopic && decide (4 ≤ l.topics.length)

/-- The receipt-scanning loop of `register`: every matching log overwrites
`agent_id` with its fourth topic, starting from `None`. -/
def extractAgentId (logs : List LogEntry) : Option Nat :=
  logs.foldl (fun acc l => if logMatchesTransfer l then some (l.topics.getD 3 0) else acc) none

/-- The registration result assembled by `register`. -/
structure RegisterResult where
  agent_id : Option Nat
  tx_hash : String
  owner : String
  explorer_url : String
deriving DecidableEq

/-- The tail of `register` after the transaction is mined: scan the receipt
logs for the transfer event and assemble the result dict. -/
def register_finish (explorer tx_hash owner : String) (receipt_logs : List LogEntry) :
    RegisterResult :=
  { agent_id := extractAgentId receipt_logs, tx_hash := tx_hash, owner := owner,
    explorer_url := explorer ++ "/tx/" ++ tx_hash }

/-- The `agent_uri_or_metadata` argument of `register`. -/
inductive RegisterArg where
  | none : RegisterArg
  | str (s : PyStr) : RegisterArg
  | dict (kvs : List (PyStr × Json)) : RegisterArg

/-- The two contract call shapes `register` actually issues. -/
inductive RegisterCall where
  | noArgs : RegisterCall
  | withUri (uri : PyStr) : RegisterCall
deriving DecidableEq

/-- Python truthiness of the `register` argument (`None`, `""` and `{}` are
falsy). -/
def pyTruthyArg : RegisterArg → Bool
  | .none => false
  | .str s => !s.isEmpty
  | .dict kvs => !kvs.isEmpty

/-- The call-shape selection of `register`: a truthy dict is encoded as a
data URI, a truthy string is used unchanged, and a falsy argument (or empty
resulting URI) selects the no-argument overload. -/
def register_call_shape (arg : RegisterArg) : RegisterCall :=
  let agent_uri : PyStr :=
    if pyTruthyArg arg then
      match arg with
      | .dict kvs => create_data_uri (Json.obj kvs)
      | .str s => s
      | .none => []
    else []
  if agent_uri.isEmpty then .noArgs else .withUri agent_uri

/-! ## Theorems -/

/-- C5: `agent_exists` returns `true` exactly when the `ownerOf` view call
succeeds, and `false` whenever it throws, for every error whatsoever; being a
total `Bool`-valued function of the oracle, it never propagates a failure. -/
theorem agent_exists_iff_call_ok (n : Int) (ownerOf : Int → Except String String) :
    agent_exists (.int n) ownerOf = (ownerOf n).isOk := by
  unfold agent_exists pyIntOf
  cases h : ownerOf n <;> simp [bind, Except.bind, h, Except.isOk, Except.toBool]

/-- C10: a string `agent_id` that does not parse as an integer makes
`agent_exists` return `False` (the conversion failure is caught with the call
failures), while `get_agent` propagates the conversion error because its
`int(agent_id)` runs before the guarded owner lookup. -/
theorem int_conversion_asymmetry (s e : String) (h : pyInt s = .error e)
    (explorer reg : String) (ownerOf tokenURI : Int → Except String String)
    (httpGet : String → Except String Json) :
    agent_exists (.str s) ownerOf = false ∧
      get_agent (.str s) explorer reg ownerOf tokenURI httpGet = .error e := by
  constructor
  · unfold agent_exists pyIntOf
    simp [h, bind, Except.bind]
  · unfold get_agent pyIntOf
    simp [h]

/-- Witness for C10 at the concrete unparseable id `"abc"`. -/
theorem int_conversion_asymmetry_witness :
    agent_exists (.str "abc") (fun _ => .ok "0xOWNER") = false ∧
      get_agent (.str "abc") "https://etherscan.io" "0xREG" (fun _ => .ok "0xOWNER")
          (fun _ => .ok "uri") (fun _ => .error "offline") =
        .error "invalid literal for int with base 10: abc" :=
  int_conversion_asymmetry "abc" "invalid literal for int with base 10: abc" rfl
    "https://etherscan.io" "0xREG" _ _ _

/-- C8: network lookup is case-insensitive — any string whose lowercasing is
a configured name yields that name's configuration, the same result as
looking up the configured name itself — and any other name fails with the
`Unknown network` error listing the valid names. -/
theorem get_network_spec :
    (∀ (s name : String) (cfg : NetworkConfig), (name, cfg) ∈ NETWORKS → pyLower s = name →
      get_network s = .ok cfg ∧ get_network s = get_network name) ∧
    (∀ s : String, pyLower s ∉ NETWORKS.map Prod.fst →
      get_network s = .error ("Unknown network: " ++ s ++ ". Available: " ++ availableNetworks)) := by
  constructor
  · intro s name cfg hmem hlow
    simp only [NETWORKS, List.mem_cons, List.not_mem_nil, or_false] at hmem
    rcases hmem with h | h <;>
    · rw [Prod.mk.injEq] at h
      obtain ⟨h1, h2⟩ := h
      subst h1
      subst h2
      unfold get_network
      rw [hlow]
      exact ⟨rfl, rfl⟩
  · intro s h
    have h1 : (pyLower s == "mainnet") = false := by
      rw [beq_eq_false_iff_ne]
      intro hc
      exact h (by rw [hc]; simp [NETWORKS])
    have h2 : (pyLower s == "sepolia") = false := by
      rw [beq_eq_false_iff_ne]
      intro hc
      exact h (by rw [hc]; simp [NETWORKS])
    unfold get_network
    simp [NETWORKS, List.lookup, h1, h2]

/-- Witness for C8 at the case variant `"MAINNET"` and the unknown name
`"unknown"`. -/
theorem get_network_spec_witness :
    get_network "MAINNET" = get_network "mainnet" ∧
    get_network "unknown" =
      .error ("Unknown network: " ++ "unknown" ++ ". Available: " ++ availableNetworks) :=
  ⟨(get_network_spec.1 "MAINNET" "mainnet"
      { chain_id := 1, name := "Ethereum Mainnet", rpc := "https://eth.drpc.org",
        explorer := "https://etherscan.io",
        contracts :=
          { identity_registry := "0x8004A169FB4a3325136EB29fA0ceB6D2e539a432",
            reputation_registry := "0x8004BAa17C55a88189AE136b182e5fdA19dE9b63",
            validation_registry := "0x0000000000000000000000000000000000000000" } }
      (by simp [NETWORKS]) rfl).2,
   get_network_spec.2 "unknown" (by decide)⟩

/-- C9: the call-shape selection of `register` — `None`, the empty string and
the empty dict select the no-argument overload; a non-empty dict is encoded
as a data URI and passed to the single-URI overload; a non-empty string is
passed to the single-URI overload unchanged. -/
theorem register_call_shape_spec :
    register_call_shape .none = .noArgs ∧
    register_call_shape (.str []) = .noArgs ∧
    register_call_shape (.dict []) = .noArgs ∧
    (∀ kvs, kvs ≠ [] →
      register_call_shape (.dict kvs) = .withUri (create_data_uri (Json.obj kvs))) ∧
    (∀ s : PyStr, s ≠ [] → register_call_shape (.str s) = .withUri s) := by
  refine ⟨rfl, rfl, rfl, ?_, ?_⟩
  · intro kvs h
    cases kvs with
    | nil => exact absurd rfl h
    | cons kv kvs =>
      show register_call_shape (.dict (kv :: kvs)) = _
      unfold register_call_shape
      simp [pyTruthyArg, create_data_uri, dataUriScheme, strToPy]
  · intro s h
    cases s with
    | nil => exact absurd rfl h
    | cons c cs => rfl

/-- Witness for C9 at a one-entry dict and a one-character string. -/
theorem register_call_shape_witness :
    register_call_shape (.dict [(strToPy "a", Json.int 1)]) =
      .withUri (create_data_uri (Json.obj [(strToPy "a", Json.int 1)])) ∧
    register_call_shape (.str (strToPy "x")) = .withUri (strToPy "x") :=
  ⟨register_call_shape_spec.2.2.2.1 _ (List.cons_ne_nil _ _),
   register_call_shape_spec.2.2.2.2 _ (by simp [strToPy])⟩

/-- C4: `get_reputation` never propagates a failure — with no reviewers it
short-circuits (independently of the oracles) to the zero summary carrying
the explanatory note; with reviewers, a failing checksum or summary call
yields the zero summary carrying the error text; a succeeding call returning
`(count, raw, decimals)` yields `feedback_count = count` and
`average_score = raw / 10 ^ decimals`. -/
theorem get_reputation_spec (aid : Int) (tag1 tag2 : String)
    (toC : String → Except String String)
    (getS : Int → List String → String → String → Except String (Int × Int × Nat)) :
    (∀ arg, arg = none ∨ arg = some ([] : List String) →
      get_reputation aid arg tag1 tag2 toC getS =
        { agent_id := aid, feedback_count := 0, average_score := none, decimals := 0,
          raw_value := 0,
          note := some "Provide client_addresses to query reputation from specific reviewers",
          error := none, filters := ⟨[], tag1, tag2⟩ }) ∧
    (∀ addrs e, addrs ≠ [] →
      (addrs.mapM toC >>= fun cs => getS aid cs tag1 tag2) = .error e →
      get_reputation aid (some addrs) tag1 tag2 toC getS =
        { agent_id := aid, feedback_count := 0, average_score := none, decimals := 0,
          raw_value := 0, note := none, error := some e, filters := ⟨addrs, tag1, tag2⟩ }) ∧
    (∀ addrs count raw dec, addrs ≠ [] →
      (addrs.mapM toC >>= fun cs => getS aid cs tag1 tag2) = .ok (count, raw, dec) →
      get_reputation aid (some addrs) tag1 tag2 toC getS =
        { agent_id := aid, feedback_count := count,
          average_score := some ((raw : ℚ) / 10 ^ dec), decimals := dec, raw_value := raw,
          note := none, error := none, filters := ⟨addrs, tag1, tag2⟩ }) := by
  refine ⟨?_, ?_, ?_⟩
  · rintro arg (rfl | rfl) <;> rfl
  · intro addrs e hne h
    cases addrs with
    | nil => exact absurd rfl hne
    | cons a as =>
      simp only [get_reputation, Option.getD_some, List.isEmpty_cons, Bool.false_eq_true,
        if_false]
      rw [h]
  · intro addrs count raw dec hne h
    cases addrs with
    | nil => exact absurd rfl hne
    | cons a as =>
      simp only [get_reputation, Option.getD_some, List.isEmpty_cons, Bool.false_eq_true,
        if_false]
      rw [h]

/-- Witness for C4 at a succeeding summary call `(10, 450, 2)` and at an
empty reviewer list. -/
theorem get_reputation_spec_witness :
    (get_reputation 1 (some ["0xAB"]) "" "" (fun a => .ok a)
        (fun _ _ _ _ => .ok (10, 450, 2))).feedback_count = 10 ∧
    (get_reputation 1 (some ["0xAB"]) "" "" (fun a => .ok a)
        (fun _ _ _ _ => .ok (10, 450, 2))).average_score = some ((9 : ℚ) / 2) ∧
    (get_reputation 1 none "" "" (fun a => .ok a)
        (fun _ _ _ _ => .ok (10, 450, 2))).note =
      some "Provide client_addresses to query reputation from specific reviewers" := by
  have h := get_reputation_spec 1 "" "" (fun a => .ok a)
    (fun _ _ _ _ => .ok (10, 450, 2))
  have h3 := h.2.2 ["0xAB"] 10 450 2 (List.cons_ne_nil _ _) rfl
  have h1 := h.1 none (Or.inl rfl)
  rw [h3, h1]
  refine ⟨rfl, ?_, rfl⟩
  norm_num

/-- Rounding half to even returns a nearest integer. -/
theorem pyRound_nearest (q : ℚ) : |(pyRound q : ℚ) - q| ≤ 1 / 2 := by
  have h1 : (⌊q⌋ : ℚ) ≤ q := Int.floor_le q
  have h2 : q < ⌊q⌋ + 1 := Int.lt_floor_add_one q
  simp only [pyRound]
  split_ifs <;> (rw [abs_le]; push_cast; constructor <;> linarith)

/-- C7: `give_feedback` encodes the score as the fixed-point integer obtained
by scaling by `10 ^ decimals` and rounding (Python `round`, which returns a
nearest integer), so `value = 4.5`, `decimals = 2` encodes `450`; an absent
`feedback_hash` is encoded as 32 zero bytes. -/
theorem give_feedback_encoding (aid : Int) (value : ℚ) (decimals : Nat)
    (t1 t2 ep uri : String) :
    give_feedback_call aid value decimals t1 t2 ep uri none =
      .ok { agentId := aid, value := pyRound (value * 10 ^ decimals),
            valueDecimals := decimals, tag1 := t1, tag2 := t2, endpoint := ep,
            feedbackURI := uri, feedbackHash := List.replicate 32 0 } ∧
    |(pyRound (value * 10 ^ decimals) : ℚ) - value * 10 ^ decimals| ≤ 1 / 2 ∧
    pyRound ((9 / 2 : ℚ) * 10 ^ (2 : Nat)) = 450 := by
  refine ⟨rfl, pyRound_nearest _, ?_⟩
  have : (9 / 2 : ℚ) * 10 ^ (2 : Nat) = ((450 : Int) : ℚ) := by norm_num
  rw [this]
  simp [pyRound, Int.floor_intCast]

/-- The scanning loop of `register` keeps the fourth topic of the last
matching log, `None` when no log matches. -/
theorem extract_foldl_aux (logs : List LogEntry) (acc : Option Nat) :
    logs.foldl (fun a l => if logMatchesTransfer l then some (l.topics.getD 3 0) else a) acc =
      match (logs.filter logMatchesTransfer).reverse.head? with
      | some l => some (l.topics.getD 3 0)
      | none => acc := by
  induction logs generalizing acc with
  | nil => rfl
  | cons l ls ih =>
    rw [List.foldl_cons, List.filter_cons]
    by_cases h : logMatchesTransfer l
    · rw [if_pos h, if_pos h, ih, List.reverse_cons]
      cases hrev : (ls.filter logMatchesTransfer).reverse with
      | nil => simp
      | cons x xs => simp
    · rw [if_neg h, if_neg h, ih]

/-- C1: after a registration transaction is mined, `register` scans the
receipt logs for the fixed transfer event signature; `agent_id` is the
decoded fourth topic of the (last) matching log with at least four topics,
and is `None` exactly when no log matches — never an error. -/
theorem register_receipt_scan_spec (explorer txh owner : String) (logs : List LogEntry) :
    (register_finish explorer txh owner logs).agent_id =
      ((logs.filter logMatchesTransfer).reverse.head?).map (fun l => l.topics.getD 3 0) ∧
    ((register_finish explorer txh owner logs).agent_id = none ↔
      ∀ l ∈ logs, logMatchesTransfer l = false) := by
  have hchar : (register_finish explorer txh owner logs).agent_id =
      ((logs.filter logMatchesTransfer).reverse.head?).map (fun l => l.topics.getD 3 0) := by
    show extractAgentId logs = _
    rw [extractAgentId, extract_foldl_aux]
    cases (logs.filter logMatchesTransfer).reverse.head? <;> rfl
  refine ⟨hchar, ?_⟩
  rw [hchar]
  simp [List.filter_eq_nil_iff]

/-! ### Decimal printing round-trips through the number parser -/

/-- Zero has no digits at any fuel. -/
theorem natDigitsLE_zero (fuel : Nat) : natDigitsLE fuel 0 = [] := by cases fuel <;> rfl

/-- With enough fuel, the digit list evaluates back to the number. -/
theorem natDigitsLE_val (fuel : Nat) :
    ∀ n, n ≤ fuel → digitsValLE (natDigitsLE fuel n) = n := by
  induction fuel with
  | zero =>
    intro n h
    have : n = 0 := by omega
    subst this
    rfl
  | succ f ih =>
    intro n h
    by_cases h0 : n = 0
    · subst h0; rfl
    · simp only [natDigitsLE, if_neg h0, digitsValLE]
      rw [ih (n / 10) (by omega)]
      omega

/-- Every produced digit is below ten. -/
theorem natDigitsLE_lt (fuel : Nat) : ∀ n d, d ∈ natDigitsLE fuel n → d < 10 := by
  induction fuel with
  | zero => intro n d h; simp [natDigitsLE] at h
  | succ f ih =>
    intro n d h
    by_cases h0 : n = 0
    · subst h0; simp [natDigitsLE] at h
    · simp only [natDigitsLE, if_neg h0, List.mem_cons] at h
      rcases h with rfl | h
      · omega
      · exact ih _ _ h

/-- A positive number's most significant digit is nonzero. -/
theorem natDigitsLE_reverse_head (fuel : Nat) :
    ∀ n, 0 < n → n ≤ fuel →
      ∃ d ds, (natDigitsLE fuel n).reverse = d :: ds ∧ 0 < d ∧ d < 10 := by
  induction fuel with
  | zero => intro n h0 h; omega
  | succ f ih =>
    intro n h0 h
    simp only [natDigitsLE, if_neg (by omega : ¬n = 0), List.reverse_cons]
    by_cases h10 : n < 10
    · have hq : n / 10 = 0 := by omega
      rw [hq, natDigitsLE_zero]
      exact ⟨n % 10, [], by simp, by omega, by omega⟩
    · obtain ⟨d, ds, hrev, hd0, hd10⟩ := ih (n / 10) (by omega) (by omega)
      exact ⟨d, ds ++ [n % 10], by rw [hrev]; rfl, hd0, hd10⟩

/-- Every character of a printed natural number is a decimal digit. -/
theorem natRepr_all_digits (n : Nat) : ∀ c ∈ natRepr n, isDigitC c = true := by
  intro c hc
  unfold natRepr at hc
  split at hc
  · simp only [List.mem_singleton] at hc
    subst hc
    decide
  · simp only [List.mem_map, List.mem_reverse] at hc
    obtain ⟨d, hd, rfl⟩ := hc
    have := natDigitsLE_lt n n d hd
    simp only [isDigitC]
    simp only [Bool.and_eq_true, decide_eq_true_eq]
    omega

/-- A printed positive number starts with a nonzero digit. -/
theorem natRepr_head_pos (n : Nat) (h0 : 0 < n) :
    ∃ c cs, natRepr n = c :: cs ∧ c ≠ 0x30 ∧ isDigitC c = true := by
  obtain ⟨d, ds, hrev, hd0, hd10⟩ := natDigitsLE_reverse_head n n h0 le_rfl
  refine ⟨0x30 + d, ds.map (fun d => 0x30 + d), ?_, by omega, ?_⟩
  · unfold natRepr
    rw [if_neg (by omega : ¬n = 0), hrev]
    rfl
  · simp only [isDigitC, Bool.and_eq_true, decide_eq_true_eq]
    omega

/-- Digit-character folding over a reversed little-endian digit list. -/
theorem foldl_digits (ds : List Nat) (a : Nat) :
    (ds.reverse.map (fun d => 0x30 + d)).foldl (fun a c => a * 10 + (c - 0x30)) a =
      a * 10 ^ ds.length + digitsValLE ds := by
  induction ds generalizing a with
  | nil => simp [digitsValLE]
  | cons d ds ih =>
    simp only [List.reverse_cons, List.map_append, List.foldl_append, ih, List.map_cons,
      List.map_nil, List.foldl_cons, List.foldl_nil, digitsValLE, List.length_cons]
    have hd : 0x30 + d - 0x30 = d := by omega
    rw [hd]
    ring

/-- The number printer and the digit evaluator are inverse. -/
theorem digitsToNatMSB_natRepr (n : Nat) : digitsToNatMSB (natRepr n) = n := by
  by_cases h0 : n = 0
  · subst h0; rfl
  · unfold natRepr digitsToNatMSB
    rw [if_neg h0, foldl_digits]
    simp [natDigitsLE_val n n le_rfl]

/-- A number-safe suffix starts no fractional part. -/
theorem parseFrac_numSafe (rest : PyStr) (hs : numSafe rest = true) :
    parseFrac rest = none := by
  cases rest with
  | nil => rfl
  | cons c t =>
    simp only [numSafe, Bool.and_eq_true, bne_iff_ne, ne_eq] at hs
    simp only [parseFrac]
    rw [if_neg hs.1.1.2]

/-- A number-safe suffix starts no exponent part. -/
theorem parseExp_numSafe (rest : PyStr) (hs : numSafe rest = true) :
    parseExp rest = none := by
  cases rest with
  | nil => rfl
  | cons c t =>
    simp only [numSafe, Bool.and_eq_true, bne_iff_ne, ne_eq] at hs
    simp only [parseExp]
    rw [if_neg (by
      intro h
      rcases h with h | h
      · exact hs.1.2 h
      · exact hs.2 h)]

/-- With a number-safe remainder the number ends as an integer. -/
theorem parseNumTail_numSafe (neg : Bool) (ds : PyStr) (r : PyStr)
    (hs : numSafe r = true) :
    parseNumTail neg ds r = .ok (.int (condNeg neg (digitsToNatMSB ds)), r) := by
  simp only [parseNumTail, parseFrac_numSafe r hs, parseExp_numSafe r hs]

/-- Digit characters are consumed greedily up to a number-safe suffix. -/
theorem takeWhile_digits_append (ds rest : PyStr) (hds : ∀ c ∈ ds, isDigitC c = true)
    (hrest : numSafe rest = true) :
    (ds ++ rest).takeWhile isDigitC = ds ∧ (ds ++ rest).dropWhile isDigitC = rest := by
  induction ds with
  | nil =>
    cases rest with
    | nil => exact ⟨rfl, rfl⟩
    | cons c t =>
      simp only [numSafe, Bool.and_eq_true, Bool.not_eq_true'] at hrest
      simp [List.takeWhile, List.dropWhile, hrest.1.1.1]
  | cons d ds ih =>
    have hd := hds d (List.mem_cons_self d ds)
    obtain ⟨h1, h2⟩ := ih (fun c hc => hds c (List.mem_cons_of_mem d hc))
    constructor
    · simp [List.takeWhile, hd, h1]
    · simp [List.dropWhile, hd, h2]

/-- The digit grammar parses a printed natural with either sign flag. -/
theorem parseNumberCore_natRepr (neg : Bool) (m : Nat) (rest : PyStr)
    (hs : numSafe rest = true) :
    parseNumberCore neg (natRepr m ++ rest) = .ok (.int (condNeg neg m), rest) := by
  by_cases h0 : m = 0
  · subst h0
    show parseNumTail neg [0x30] rest = _
    rw [parseNumTail_numSafe neg [0x30] rest hs]
    rfl
  · obtain ⟨c, cs, heq, hne, hdig⟩ := natRepr_head_pos m (by omega)
    have hall := natRepr_all_digits m
    rw [heq]
    obtain ⟨htake, hdrop⟩ := takeWhile_digits_append (c :: cs) rest
      (by rw [← heq]; exact hall) hs
    rw [List.cons_append]
    simp only [parseNumberCore, if_neg hne, hdig, if_true]
    rw [← List.cons_append, htake, hdrop, parseNumTail_numSafe neg (c :: cs) rest hs, ← heq,
      digitsToNatMSB_natRepr]

/-- A number whose head is not a minus sign parses without the sign flag. -/
theorem parseNumber_cons_ne (c : Nat) (t : PyStr) (h : c ≠ 0x2D) :
    parseNumber (c :: t) = parseNumberCore false (c :: t) := by
  unfold parseNumber
  split
  · next _ s1 heq =>
    rw [List.cons.injEq] at heq
    exact absurd heq.1 h
  · rfl

/-- The number parser inverts the integer printer before any number-safe
suffix. -/
theorem parseNumber_intRepr (n : Int) (rest : PyStr) (hs : numSafe rest = true) :
    parseNumber (intRepr n ++ rest) = .ok (.int n, rest) := by
  unfold intRepr
  split
  · next hneg =>
    rw [List.cons_append]
    show parseNumberCore true (natRepr (-n).toNat ++ rest) = _
    rw [parseNumberCore_natRepr true _ rest hs]
    simp only [condNeg, if_true]
    have hv : (((-n).toNat : Nat) : Int) = -n := by omega
    rw [hv, neg_neg]
  · next hneg =>
    obtain ⟨c, cs, heq, hdig⟩ :
        ∃ c cs, natRepr n.toNat = c :: cs ∧ isDigitC c = true := by
      by_cases h0 : n.toNat = 0
      · exact ⟨0x30, [], by rw [h0]; rfl, by decide⟩
      · obtain ⟨c, cs, heq, _, hdig⟩ := natRepr_head_pos n.toNat (by omega)
        exact ⟨c, cs, heq, hdig⟩
    rw [heq, List.cons_append, parseNumber_cons_ne c _ (by
      simp only [isDigitC, Bool.and_eq_true, decide_eq_true_eq] at hdig
      omega), ← List.cons_append, ← heq, parseNumberCore_natRepr false _ rest hs]
    simp only [condNeg, Bool.false_eq_true, if_false]
    have hv : ((n.toNat : Nat) : Int) = n := by omega
    rw [hv]

/-! ### String escaping round-trips through the string parser -/

/-- Hex digit characters decode back to their value. -/
theorem hexVal_hexDigitChar : ∀ d, d < 16 → hexVal (hexDigitChar d) = some d := by decide

/-- A `\uXXXX` escape of a BMP code point decodes back to it. -/
theorem hex4_hex4Chars (c : Nat) (h : c < 0x10000) :
    hex4 (hexDigitChar (c / 4096 % 16)) (hexDigitChar (c / 256 % 16))
      (hexDigitChar (c / 16 % 16)) (hexDigitChar (c % 16)) = some c := by
  unfold hex4
  rw [hexVal_hexDigitChar _ (by omega), hexVal_hexDigitChar _ (by omega),
    hexVal_hexDigitChar _ (by omega), hexVal_hexDigitChar _ (by omega)]
  show some (c / 4096 % 16 * 4096 + c / 256 % 16 * 256 + c / 16 % 16 * 16 + c % 16) = some c
  congr 1
  have h2 : c / 16 % 16 = c % 256 / 16 := (Nat.mod_mul_right_div_self c 16 16).symm
  have h3 : c / 256 % 16 = c % 4096 / 256 := (Nat.mod_mul_right_div_self c 256 16).symm
  have h4 : c / 4096 % 16 = c / 4096 := Nat.mod_eq_of_lt (by omega)
  rw [h2, h3, h4]
  have e1 := Nat.div_add_mod (c % 4096) 256
  have e2 := Nat.div_add_mod (c % 256) 16
  have e3 := Nat.div_add_mod c 4096
  have f1 : c % 4096 % 256 = c % 256 := Nat.mod_mod_of_dvd c (by norm_num)
  have f2 : c % 256 % 16 = c % 16 := Nat.mod_mod_of_dvd c (by norm_num)
  nlinarith [e1, e2, e3, f1, f2]

/-- Escaping distributes over cons. -/
theorem escapeString_cons (c : Nat) (s : PyStr) :
    escapeString (c :: s) = escapeChar c ++ escapeString s := by
  simp [escapeString]

/-- The four shapes an escaped character can take: a two-character short
escape, a verbatim printable character, a single `\uXXXX` escape, or a
surrogate pair of escapes for an astral code point. -/
theorem escapeChar_cases (c : Nat) (hv : c < 0x110000) :
    (∃ e, escapeChar c = [0x5C, e] ∧ e ≠ 0x75 ∧ simpleEscape e = some c) ∨
    (0x20 ≤ c ∧ c ≤ 0x7E ∧ c ≠ 0x22 ∧ c ≠ 0x5C ∧ escapeChar c = [c]) ∨
    (c < 0x10000 ∧ escapeChar c = 0x5C :: 0x75 :: hex4Chars c) ∨
    (0x10000 ≤ c ∧ isHiSurr c = false ∧
      escapeChar c = 0x5C :: 0x75 :: hex4Chars (0xD800 + (c - 0x10000) / 1024) ++
        (0x5C :: 0x75 :: hex4Chars (0xDC00 + (c - 0x10000) % 1024))) := by
  by_cases h1 : c = 0x22
  · exact Or.inl ⟨0x22, by subst h1; rfl, by decide, by subst h1; rfl⟩
  by_cases h2 : c = 0x5C
  · exact Or.inl ⟨0x5C, by subst h2; rfl, by decide, by subst h2; rfl⟩
  by_cases h3 : c = 0x08
  · exact Or.inl ⟨0x62, by subst h3; rfl, by decide, by subst h3; rfl⟩
  by_cases h4 : c = 0x09
  · exact Or.inl ⟨0x74, by subst h4; rfl, by decide, by subst h4; rfl⟩
  by_cases h5 : c = 0x0A
  · exact Or.inl ⟨0x6E, by subst h5; rfl, by decide, by subst h5; rfl⟩
  by_cases h6 : c = 0x0C
  · exact Or.inl ⟨0x66, by subst h6; rfl, by decide, by subst h6; rfl⟩
  by_cases h7 : c = 0x0D
  · exact Or.inl ⟨0x72, by subst h7; rfl, by decide, by subst h7; rfl⟩
  by_cases h8 : c < 0x20
  · refine Or.inr (Or.inr (Or.inl ⟨by omega, ?_⟩))
    unfold escapeChar
    rw [if_neg h1, if_neg h2, if_neg h3, if_neg h4, if_neg h5, if_neg h6, if_neg h7,
      if_pos h8]
  by_cases h9 : c ≤ 0x7E
  · refine Or.inr (Or.inl ⟨by omega, h9, h1, h2, ?_⟩)
    unfold escapeChar
    rw [if_neg h1, if_neg h2, if_neg h3, if_neg h4, if_neg h5, if_neg h6, if_neg h7,
      if_neg h8, if_pos h9]
  by_cases h10 : c < 0x10000
  · refine Or.inr (Or.inr (Or.inl ⟨h10, ?_⟩))
    unfold escapeChar
    rw [if_neg h1, if_neg h2, if_neg h3, if_neg h4, if_neg h5, if_neg h6, if_neg h7,
      if_neg h8, if_neg h9, if_pos h10]
  · refine Or.inr (Or.inr (Or.inr ⟨by omega, ?_, ?_⟩))
    · simp only [isHiSurr]
      simp only [Bool.and_eq_false_iff, decide_eq_false_iff_not]
      right
      omega
    · unfold escapeChar
      rw [if_neg h1, if_neg h2, if_neg h3, if_neg h4, if_neg h5, if_neg h6, if_neg h7,
        if_neg h8, if_neg h9, if_neg h10]

/-- Code-point bound and tail well-formedness of a well-formed string. -/
theorem strWF_cons (c : Nat) (s : PyStr) (h : strWF (c :: s) = true) :
    c < 0x110000 ∧ strWF s = true := by
  simp only [strWF, List.all_cons, Bool.and_eq_true, decide_eq_true_eq] at h ⊢
  refine ⟨h.1.1, h.1.2, ?_⟩
  rcases h with ⟨-, hp⟩
  cases s with
  | nil => rfl
  | cons b r =>
    simp only [noSurrPair, Bool.and_eq_true] at hp
    exact hp.2

/-- In a well-formed string a high surrogate is not followed by a low one. -/
theorem noSurrPair_head (c c' : Nat) (s : PyStr) (h : strWF (c :: c' :: s) = true)
    (hhi : isHiSurr c = true) : isLoSurr c' = false := by
  simp only [strWF, Bool.and_eq_true, noSurrPair, Bool.not_eq_true'] at h
  rcases h with ⟨-, hp, -⟩
  rcases Bool.and_eq_false_iff.mp hp with h | h
  · rw [hhi] at h; exact absurd h (by decide)
  · exact h

/-- The pair lookahead fails on input not starting with a backslash. -/
theorem surrPairEscape_not_bsl (c : Nat) (t : PyStr) (h : c ≠ 0x5C) :
    surrPairEscape (c :: t) = none := by
  unfold surrPairEscape
  split
  · next heq =>
    simp only [List.cons.injEq] at heq
    exact absurd heq.1 h
  · rfl

/-- The pair lookahead fails when the second character is not `u`. -/
theorem surrPairEscape_not_u (c e : Nat) (t : PyStr) (h : e ≠ 0x75) :
    surrPairEscape (c :: e :: t) = none := by
  unfold surrPairEscape
  split
  · next heq =>
    simp only [List.cons.injEq] at heq
    exact absurd heq.2.1 h
  · rfl

/-- The pair lookahead on a `\uXXXX` escape. -/
theorem surrPairEscape_hex (g1 g2 g3 g4 : Nat) (t : PyStr) :
    surrPairEscape (0x5C :: 0x75 :: g1 :: g2 :: g3 :: g4 :: t) =
      match hex4 g1 g2 g3 g4 with
      | some c2 => if isLoSurr c2 then some c2 else none
      | none => none := rfl

/-- The lookahead after a lone high surrogate never sees a low-surrogate
escape when the remaining input is the escape of a well-formed string whose
head is not a low surrogate. -/
theorem surrPairEscape_escapeString (s : PyStr) (rest : PyStr) (hwf : strWF s = true)
    (hnotlo : ∀ c' cs', s = c' :: cs' → isLoSurr c' = false) :
    surrPairEscape (escapeString s ++ 0x22 :: rest) = none := by
  cases s with
  | nil => exact surrPairEscape_not_bsl 0x22 rest (by decide)
  | cons c' s'' =>
    have hv := (strWF_cons c' s'' hwf).1
    rw [escapeString_cons, List.append_assoc]
    rcases escapeChar_cases c' hv with ⟨e, he, heu, -⟩ | ⟨-, -, -, hne, hlit⟩ |
        ⟨hbmp, hesc⟩ | ⟨-, hhi, hesc⟩
    · rw [he]
      exact surrPairEscape_not_u _ _ _ heu
    · rw [hlit]
      exact surrPairEscape_not_bsl _ _ hne
    · rw [hesc]
      show surrPairEscape (0x5C :: 0x75 :: hexDigitChar (c' / 4096 % 16) ::
        hexDigitChar (c' / 256 % 16) :: hexDigitChar (c' / 16 % 16) ::
        hexDigitChar (c' % 16) :: _) = none
      rw [surrPairEscape_hex, hex4_hex4Chars c' hbmp]
      show (if isLoSurr c' = true then some c' else none) = none
      simp [hnotlo c' s'' rfl]
    · rw [hesc]
      show surrPairEscape (0x5C :: 0x75 :: hexDigitChar ((0xD800 + (c' - 0x10000) / 1024) / 4096 % 16) ::
        hexDigitChar ((0xD800 + (c' - 0x10000) / 1024) / 256 % 16) ::
        hexDigitChar ((0xD800 + (c' - 0x10000) / 1024) / 16 % 16) ::
        hexDigitChar ((0xD800 + (c' - 0x10000) / 1024) % 16) :: _) = none
      rw [surrPairEscape_hex, hex4_hex4Chars _ (by omega)]
      have hlo : isLoSurr (0xD800 + (c' - 0x10000) / 1024) = false := by
        simp only [isLoSurr, Bool.and_eq_false_iff, decide_eq_false_iff_not]
        left
        omega
      show (if isLoSurr (0xD800 + (c' - 0x10000) / 1024) = true then _ else none) = none
      simp [hlo]

/-- One step of the string parser on a verbatim character. -/
theorem parseStringBody_plain (fuel c : Nat) (t : PyStr) (h1 : c ≠ 0x22) (h2 : c ≠ 0x5C)
    (h3 : ¬c < 0x20) :
    parseStringBody (fuel + 1) (c :: t) =
      (fun p => (c :: p.1, p.2)) <$> parseStringBody fuel t := by
  simp only [parseStringBody]
  rw [if_neg h1, if_neg h2, if_neg h3]

/-- One step of the string parser on a short escape. -/
theorem parseStringBody_simpleEscape (fuel e d : Nat) (t : PyStr) (he : e ≠ 0x75)
    (hd : simpleEscape e = some d) :
    parseStringBody (fuel + 1) (0x5C :: e :: t) =
      (fun p => (d :: p.1, p.2)) <$> parseStringBody fuel t := by
  simp only [parseStringBody]
  rw [if_true, if_neg he, hd]
  simp

/-- One step of the string parser on a `\uXXXX` escape. -/
theorem parseStringBody_u (fuel h1 h2 h3 h4 c1 : Nat) (t : PyStr)
    (hhex : hex4 h1 h2 h3 h4 = some c1) :
    parseStringBody (fuel + 1) (0x5C :: 0x75 :: h1 :: h2 :: h3 :: h4 :: t) =
      if isHiSurr c1 = true then
        match surrPairEscape t with
        | some c2 =>
          (fun p => (combineSurr c1 c2 :: p.1, p.2)) <$> parseStringBody fuel (t.drop 6)
        | none => (fun p => (c1 :: p.1, p.2)) <$> parseStringBody fuel t
      else (fun p => (c1 :: p.1, p.2)) <$> parseStringBody fuel t := by
  simp only [parseStringBody]
  rw [if_true, if_true, hhex]
  simp

/-- The string parser inverts the escaper: with enough fuel, parsing the
escape of a well-formed string followed by the closing quote yields the
string and the remaining input. -/
theorem parseStringBody_escapeString (s : PyStr) :
    ∀ (fuel : Nat) (rest : PyStr), strWF s = true →
      (escapeString s ++ 0x22 :: rest).length ≤ fuel →
      parseStringBody fuel (escapeString s ++ 0x22 :: rest) = .ok (s, rest) := by
  induction s with
  | nil =>
    intro fuel rest _ hlen
    cases fuel with
    | zero => simp at hlen
    | succ f => rfl
  | cons c s' ih =>
    intro fuel rest hwf hlen
    obtain ⟨hv, hwf'⟩ := strWF_cons c s' hwf
    rw [escapeString_cons, List.append_assoc] at hlen ⊢
    rcases escapeChar_cases c hv with ⟨e, he, heu, hes⟩ | ⟨hge, hle, hq, hb, hlit⟩ |
        ⟨hbmp, hesc⟩ | ⟨hast, hnothi, hesc⟩
    · rw [he] at hlen ⊢
      simp only [List.cons_append, List.nil_append, List.length_cons] at hlen ⊢
      cases fuel with
      | zero => omega
      | succ f =>
        rw [parseStringBody_simpleEscape f e c _ heu hes,
          ih f rest hwf' (by simp only [List.length_append, List.length_cons] at hlen ⊢; omega)]
        rfl
    · rw [hlit] at hlen ⊢
      simp only [List.cons_append, List.nil_append, List.length_cons] at hlen ⊢
      cases fuel with
      | zero => omega
      | succ f =>
        rw [parseStringBody_plain f c _ hq hb (by omega),
          ih f rest hwf' (by simp only [List.length_append, List.length_cons] at hlen ⊢; omega)]
        rfl
    · rw [hesc] at hlen ⊢
      simp only [hex4Chars, List.cons_append, List.nil_append, List.length_cons] at hlen ⊢
      cases fuel with
      | zero => omega
      | succ f =>
        rw [parseStringBody_u f _ _ _ _ c _ (hex4_hex4Chars c hbmp)]
        have hihgoal : (escapeString s' ++ 0x22 :: rest).length ≤ f := by
          simp only [List.length_append, List.length_cons] at hlen ⊢
          omega
        by_cases hhi : isHiSurr c = true
        · rw [if_pos hhi]
          have hlook : surrPairEscape (escapeString s' ++ 0x22 :: rest) = none := by
            apply surrPairEscape_escapeString s' rest hwf'
            intro c' cs' heq
            rw [heq] at hwf
            exact noSurrPair_head c c' cs' hwf hhi
          rw [hlook, ih f rest hwf' hihgoal]
          rfl
        · rw [if_neg hhi, ih f rest hwf' hihgoal]
          rfl
    · rw [hesc] at hlen ⊢
      simp only [hex4Chars, List.cons_append, List.nil_append, List.append_assoc,
        List.length_cons] at hlen ⊢
      cases fuel with
      | zero => omega
      | succ f =>
        rw [parseStringBody_u f _ _ _ _ _ _ (hex4_hex4Chars _ (by omega))]
        have hhi : isHiSurr (0xD800 + (c - 0x10000) / 1024) = true := by
          simp only [isHiSurr, Bool.and_eq_true, decide_eq_true_eq]
          omega
        rw [if_pos hhi]
        have hlook : surrPairEscape (0x5C :: 0x75 :: hexDigitChar ((0xDC00 + (c - 0x10000) % 1024) / 4096 % 16) ::
            hexDigitChar ((0xDC00 + (c - 0x10000) % 1024) / 256 % 16) ::
            hexDigitChar ((0xDC00 + (c - 0x10000) % 1024) / 16 % 16) ::
            hexDigitChar ((0xDC00 + (c - 0x10000) % 1024) % 16) ::
            (escapeString s' ++ 0x22 :: rest)) = some (0xDC00 + (c - 0x10000) % 1024) := by
          rw [surrPairEscape_hex, hex4_hex4Chars _ (by omega)]
          have hlo : isLoSurr (0xDC00 + (c - 0x10000) % 1024) = true := by
            simp only [isLoSurr, Bool.and_eq_true, decide_eq_true_eq]
            omega
          show (if isLoSurr (0xDC00 + (c - 0x10000) % 1024) = true then _ else none) = _
          rw [if_pos hlo]
        rw [hlook]
        show (fun p => (combineSurr _ _ :: p.1, p.2)) <$>
          parseStringBody f (List.drop 6 (0x5C :: 0x75 :: _ :: _ :: _ :: _ ::
            (escapeString s' ++ 0x22 :: rest))) = _
        rw [show List.drop 6 (0x5C :: 0x75 :: hexDigitChar ((0xDC00 + (c - 0x10000) % 1024) / 4096 % 16) ::
            hexDigitChar ((0xDC00 + (c - 0x10000) % 1024) / 256 % 16) ::
            hexDigitChar ((0xDC00 + (c - 0x10000) % 1024) / 16 % 16) ::
            hexDigitChar ((0xDC00 + (c - 0x10000) % 1024) % 16) ::
            (escapeString s' ++ 0x22 :: rest)) = escapeString s' ++ 0x22 :: rest from rfl]
        rw [ih f rest hwf' (by simp only [List.length_append, List.length_cons] at hlen ⊢; omega)]
        have hcomb : combineSurr (0xD800 + (c - 0x10000) / 1024) (0xDC00 + (c - 0x10000) % 1024) = c := by
          unfold combineSurr
          omega
        rw [hcomb]
        rfl

/-! ### Serialized values round-trip through the value parser -/

/-- Skipping whitespace leaves input whose head is not whitespace. -/
theorem skipWs_cons (c : Nat) (t : PyStr) (h : isWsC c = false) : skipWs (c :: t) = c :: t := by
  simp [skipWs, List.dropWhile_cons, h]

/-- Skipping whitespace consumes a leading space. -/
theorem skipWs_space (t : PyStr) : skipWs (0x20 :: t) = skipWs t := by
  simp [skipWs, List.dropWhile_cons, isWsC]

/-- A printed integer starts with a minus sign or a digit. -/
theorem intRepr_head (n : Int) :
    ∃ c t, intRepr n = c :: t ∧ (c = 0x2D ∨ isDigitC c = true) := by
  unfold intRepr
  split
  · exact ⟨0x2D, _, rfl, Or.inl rfl⟩
  · unfold natRepr
    by_cases h0 : n.toNat = 0
    · rw [if_pos h0]
      exact ⟨0x30, [], rfl, Or.inr (by decide)⟩
    · rw [if_neg h0]
      obtain ⟨d, ds, hrev, hd0, hd10⟩ := natDigitsLE_reverse_head n.toNat n.toNat
        (by omega) le_rfl
      rw [hrev]
      refine ⟨0x30 + d, _, rfl, Or.inr ?_⟩
      simp only [isDigitC, Bool.and_eq_true, decide_eq_true_eq]
      omega

/-- A printed integer starts with a digit, or with a minus sign followed by
a digit. -/
theorem intRepr_head2 (n : Int) :
    (∃ d t2, intRepr n = d :: t2 ∧ isDigitC d = true) ∨
    (∃ d t2, intRepr n = 0x2D :: d :: t2 ∧ isDigitC d = true) := by
  unfold intRepr
  split
  · next hneg =>
    right
    obtain ⟨d, t2, heq, _, hdig⟩ := natRepr_head_pos (-n).toNat (by omega)
    exact ⟨d, t2, by rw [heq], hdig⟩
  · left
    by_cases h0 : n.toNat = 0
    · exact ⟨0x30, [], by unfold natRepr; rw [if_pos h0], by decide⟩
    · obtain ⟨d, t2, heq, _, hdig⟩ := natRepr_head_pos n.toNat (by omega)
      exact ⟨d, t2, heq, hdig⟩

/-- The serialization of a well-formed value starts with a character that is
neither whitespace nor a closing bracket or brace. -/
theorem dumpsV_head (m : Json) (hwf : jsonWF m = true) :
    ∃ c t, dumpsV m = c :: t ∧ isWsC c = false ∧ c ≠ 0x5D ∧ c ≠ 0x7D := by
  cases m with
  | null => exact ⟨0x6E, _, rfl, by decide, by decide, by decide⟩
  | bool b =>
    cases b with
    | true => exact ⟨0x74, _, rfl, by decide, by decide, by decide⟩
    | false => exact ⟨0x66, _, rfl, by decide, by decide, by decide⟩
  | int n =>
    obtain ⟨c, t, heq, hc⟩ := intRepr_head n
    refine ⟨c, t, heq, ?_, ?_, ?_⟩ <;>
    · rcases hc with rfl | hc
      · decide
      · simp only [isDigitC, Bool.and_eq_true, decide_eq_true_eq] at hc
        simp only [isWsC, Bool.or_eq_false_iff, beq_eq_false_iff_ne, ne_eq]
        omega
  | float lit => simp [jsonWF] at hwf
  | str s => exact ⟨0x22, _, rfl, by decide, by decide, by decide⟩
  | arr xs => exact ⟨0x5B, _, rfl, by decide, by decide, by decide⟩
  | obj kvs => exact ⟨0x7B, _, rfl, by decide, by decide, by decide⟩

/-- Head shape of a serialized non-empty array followed by anything. -/
theorem dumpsArr_append_head (x : Json) (xs : List Json) (X : PyStr)
    (hwf : jsonWF x = true) :
    ∃ c t2, dumpsArr (x :: xs) ++ X = c :: t2 ∧ isWsC c = false ∧ c ≠ 0x5D ∧ c ≠ 0x7D := by
  obtain ⟨c, t, hx, hws, h1, h2⟩ := dumpsV_head x hwf
  cases xs with
  | nil => exact ⟨c, t ++ X, by simp [dumpsArr, hx], hws, h1, h2⟩
  | cons y ys =>
    exact ⟨c, t ++ 0x2C :: 0x20 :: dumpsArr (y :: ys) ++ X,
      by simp [dumpsArr, hx], hws, h1, h2⟩

/-- Value-parser dispatch to the number parser on a digit head. -/
theorem parseValue_number (fuel c : Nat) (t : PyStr) (h : isDigitC c = true) :
    parseValue (fuel + 1) (c :: t) = parseNumber (c :: t) := by
  have hb : 48 ≤ c ∧ c ≤ 57 := by
    simp only [isDigitC, Bool.and_eq_true, decide_eq_true_eq] at h
    exact h
  have h1 : c ≠ 0x22 := by omega
  have h2 : c ≠ 0x7B := by omega
  have h3 : c ≠ 0x5B := by omega
  have h4 : c ≠ 0x74 := by omega
  have h5 : c ≠ 0x66 := by omega
  have h6 : c ≠ 0x6E := by omega
  have h7 : c ≠ 0x4E := by omega
  have h8 : c ≠ 0x49 := by omega
  have h9 : c ≠ 0x2D := by omega
  simp only [parseValue]
  rw [if_neg h1, if_neg h2, if_neg h3, if_neg h4, if_neg h5, if_neg h6, if_neg h7,
    if_neg h8, if_pos (Or.inr h), if_neg h9]

/-- Value-parser dispatch to the number parser on a minus sign followed by a
digit (the scanner's `-Infinity` check does not fire). -/
theorem parseValue_number_neg (fuel d : Nat) (t2 : PyStr) (hd : isDigitC d = true) :
    parseValue (fuel + 1) (0x2D :: d :: t2) = parseNumber (0x2D :: d :: t2) := by
  have hb : 48 ≤ d ∧ d ≤ 57 := by
    simp only [isDigitC, Bool.and_eq_true, decide_eq_true_eq] at hd
    exact hd
  have hred : parseValue (fuel + 1) (0x2D :: d :: t2) =
      (match d :: t2 with
       | 0x49 :: rest2 =>
         match rest2 with
         | 0x6E :: 0x66 :: 0x69 :: 0x6E :: 0x69 :: 0x74 :: 0x79 :: r =>
           Except.ok (Json.float [0x2D, 0x49, 0x6E, 0x66, 0x69, 0x6E, 0x69, 0x74, 0x79], r)
         | _ => Except.error ()
       | _ => parseNumber (0x2D :: d :: t2)) := rfl
  rw [hred]
  split
  · next heq =>
    simp only [List.cons.injEq] at heq
    omega
  · rfl

/-- Value-parser dispatch into a non-empty array body. -/
theorem parseValue_arr (f : Nat) (t : PyStr) (c : Nat) (t2 : PyStr) (hne : c ≠ 0x5D)
    (hskip : skipWs t = c :: t2) :
    parseValue (f + 1) (0x5B :: t) =
      (fun p => (Json.arr p.1, p.2)) <$> parseArrLoop f (c :: t2) := by
  have hred : parseValue (f + 1) (0x5B :: t) =
      (match skipWs t with
        | 0x5D :: r => Except.ok (Json.arr [], r)
        | s1 => (fun p => (Json.arr p.1, p.2)) <$> parseArrLoop f s1) := rfl
  rw [hred, hskip]
  split
  · next heq =>
    simp only [List.cons.injEq] at heq
    exact absurd heq.1 hne
  · rfl

/-- Value-parser dispatch into a non-empty object body. -/
theorem parseValue_obj (f : Nat) (t : PyStr) (c : Nat) (t2 : PyStr) (hne : c ≠ 0x7D)
    (hskip : skipWs t = c :: t2) :
    parseValue (f + 1) (0x7B :: t) =
      (fun p => (Json.obj (mkPyDict p.1), p.2)) <$> parseObjLoop f (c :: t2) := by
  have hred : parseValue (f + 1) (0x7B :: t) =
      (match skipWs t with
        | 0x7D :: r => Except.ok (Json.obj [], r)
        | s1 => (fun p => (Json.obj (mkPyDict p.1), p.2)) <$> parseObjLoop f s1) := rfl
  rw [hred, hskip]
  split
  · next heq =>
    simp only [List.cons.injEq] at heq
    exact absurd heq.1 hne
  · rfl

/-- Inserting a fresh key appends it. -/
theorem dictInsert_notMem (acc : List (PyStr × Json)) (k : PyStr) (v : Json)
    (h : ∀ kv ∈ acc, kv.1 ≠ k) : dictInsert acc k v = acc ++ [(k, v)] := by
  induction acc with
  | nil => rfl
  | cons kv acc ih =>
    obtain ⟨k1, v1⟩ := kv
    simp only [dictInsert]
    rw [if_neg (h (k1, v1) (List.mem_cons_self _ _)),
      ih (fun kv2 h2 => h kv2 (List.mem_cons_of_mem _ h2))]
    rfl

/-- A false `contains` means non-membership. -/
theorem not_mem_of_contains_eq_false (ks : List PyStr) (k : PyStr)
    (h : ks.contains k = false) : k ∉ ks := by
  intro hm
  simp only [List.contains, List.elem_eq_mem, decide_eq_false_iff_not] at h
  exact h hm

/-- Folding dict insertion over pairs with fresh distinct keys appends them. -/
theorem mkPyDict_aux (pairs : List (PyStr × Json)) :
    ∀ acc, (∀ kv ∈ pairs, ∀ kv2 ∈ acc, kv2.1 ≠ kv.1) →
      nodupKeysB (pairs.map Prod.fst) = true →
      pairs.foldl (fun a kv => dictInsert a kv.1 kv.2) acc = acc ++ pairs := by
  induction pairs with
  | nil => intro acc _ _; simp
  | cons kv pairs ih =>
    intro acc hdisj hnd
    obtain ⟨k, v⟩ := kv
    simp only [List.map_cons, nodupKeysB, Bool.and_eq_true, Bool.not_eq_true'] at hnd
    obtain ⟨hknew, hnd'⟩ := hnd
    simp only [List.foldl_cons]
    rw [dictInsert_notMem acc k v
      (fun kv2 h2 => hdisj (k, v) (List.mem_cons_self _ _) kv2 h2)]
    rw [ih (acc ++ [(k, v)]) ?_ hnd']
    · simp
    · intro kv2 hkv2 kv3 hkv3
      rcases List.mem_append.mp hkv3 with h | h
      · exact hdisj kv2 (List.mem_cons_of_mem _ hkv2) kv3 h
      · simp only [List.mem_singleton] at h
        subst h
        intro hEq
        have hmem : kv2.1 ∈ pairs.map Prod.fst := List.mem_map_of_mem Prod.fst hkv2
        rw [← hEq] at hmem
        exact (not_mem_of_contains_eq_false _ k hknew) hmem

/-- Parsed object pairs with distinct keys survive dict construction. -/
theorem mkPyDict_nodup (pairs : List (PyStr × Json))
    (hnd : nodupKeysB (pairs.map Prod.fst) = true) : mkPyDict pairs = pairs := by
  unfold mkPyDict
  rw [mkPyDict_aux pairs [] (by intro kv _ kv2 h2; simp at h2) hnd]
  simp

/-- Every value needs at least one unit of fuel. -/
theorem sizeV_pos (m : Json) : 1 ≤ sizeV m := by
  cases m <;> simp [sizeV]

/-- Shape of a serialized one-entry object followed by anything. -/
theorem dumpsObj_single_shape (k : PyStr) (v : Json) (X : PyStr) :
    dumpsObj [(k, v)] ++ X =
      0x22 :: (escapeString k ++ 0x22 :: 0x3A :: 0x20 :: (dumpsV v ++ X)) := by
  simp [dumpsObj]

/-- Shape of a serialized multi-entry object followed by anything. -/
theorem dumpsObj_cons2_shape (k : PyStr) (v : Json) (e : PyStr × Json)
    (kvs : List (PyStr × Json)) (X : PyStr) :
    dumpsObj ((k, v) :: e :: kvs) ++ X =
      0x22 :: (escapeString k ++ 0x22 :: 0x3A :: 0x20 :: (dumpsV v ++
        0x2C :: 0x20 :: (dumpsObj (e :: kvs) ++ X))) := by
  simp [dumpsObj]

/-- A serialized non-empty object followed by anything starts with a quote. -/
theorem dumpsObj_head (k : PyStr) (v : Json) (kvs : List (PyStr × Json)) (X : PyStr) :
    ∃ t2, dumpsObj ((k, v) :: kvs) ++ X = 0x22 :: t2 := by
  cases kvs with
  | nil => exact ⟨_, dumpsObj_single_shape k v X⟩
  | cons e kvs2 => exact ⟨_, dumpsObj_cons2_shape k v e kvs2 X⟩

/-- With fuel at least the size of the value, the value parser inverts the
serializer; the array- and object-body loops invert the element and entry
serializers. -/
theorem parse_dumps (fuel : Nat) :
    (∀ m rest, jsonWF m = true → sizeV m ≤ fuel → numSafe rest = true →
      parseValue fuel (dumpsV m ++ rest) = .ok (m, rest)) ∧
    (∀ x xs rest, jsonWFList (x :: xs) = true → sizeArr (x :: xs) ≤ fuel →
      numSafe rest = true →
      parseArrLoop fuel (dumpsArr (x :: xs) ++ 0x5D :: rest) = .ok (x :: xs, rest)) ∧
    (∀ k v kvs rest, jsonWFObj ((k, v) :: kvs) = true → sizeObj ((k, v) :: kvs) ≤ fuel →
      numSafe rest = true →
      parseObjLoop fuel (dumpsObj ((k, v) :: kvs) ++ 0x7D :: rest) =
        .ok ((k, v) :: kvs, rest)) := by
  induction fuel with
  | zero =>
    refine ⟨?_, ?_, ?_⟩
    · intro m rest _ hsz _
      have := sizeV_pos m
      omega
    · intro x xs rest _ hsz _
      simp only [sizeArr] at hsz
      omega
    · intro k v kvs rest _ hsz _
      simp only [sizeObj] at hsz
      omega
  | succ f ih =>
    obtain ⟨ihV, ihA, ihO⟩ := ih
    refine ⟨?_, ?_, ?_⟩
    · intro m rest hwf hsz hns
      cases m with
      | null => rfl
      | bool b => cases b <;> rfl
      | int n =>
        rcases intRepr_head2 n with ⟨d, t2, heq, hdig⟩ | ⟨d, t2, heq, hdig⟩
        · show parseValue (f + 1) (intRepr n ++ rest) = _
          rw [heq, List.cons_append, parseValue_number f d _ hdig, ← List.cons_append,
            ← heq, parseNumber_intRepr n rest hns]
        · show parseValue (f + 1) (intRepr n ++ rest) = _
          rw [heq, List.cons_append, List.cons_append, parseValue_number_neg f d _ hdig,
            ← List.cons_append, ← List.cons_append, ← heq, parseNumber_intRepr n rest hns]
      | float lit => simp [jsonWF] at hwf
      | str s =>
        have hwfs : strWF s = true := hwf
        have hT : (escapeString s ++ [0x22]) ++ rest = escapeString s ++ 0x22 :: rest := by
          simp
        have hred : ∀ T : PyStr, parseValue (f + 1) (0x22 :: T) =
            (fun p => (Json.str p.1, p.2)) <$> parseStringBody (T.length + 1) T :=
          fun _ => rfl
        show parseValue (f + 1) (0x22 :: ((escapeString s ++ [0x22]) ++ rest)) = _
        rw [hred, hT,
          parseStringBody_escapeString s _ rest hwfs (Nat.le_succ _)]
        rfl
      | arr xs =>
        cases xs with
        | nil => rfl
        | cons x xs' =>
          have hwfl : jsonWFList (x :: xs') = true := hwf
          have hwfl2 : (jsonWF x && jsonWFList xs') = true := hwfl
          rw [Bool.and_eq_true] at hwfl2
          have hszA : sizeArr (x :: xs') ≤ f := by
            simp only [sizeV] at hsz
            omega
          obtain ⟨c, t2, hhead, hws, h5, _⟩ :=
            dumpsArr_append_head x xs' (0x5D :: rest) hwfl2.1
          show parseValue (f + 1)
            (0x5B :: ((dumpsArr (x :: xs') ++ [0x5D]) ++ rest)) = _
          have hT : (dumpsArr (x :: xs') ++ [0x5D]) ++ rest =
              dumpsArr (x :: xs') ++ 0x5D :: rest := by simp
          rw [hT, parseValue_arr f _ c t2 h5 (by rw [hhead]; exact skipWs_cons c t2 hws),
            ← hhead, ihA x xs' rest hwfl hszA hns]
          rfl
      | obj kvs =>
        cases kvs with
        | nil => rfl
        | cons kv kvs' =>
          obtain ⟨k, v⟩ := kv
          have hwfo : (nodupKeysB (((k, v) :: kvs').map Prod.fst) &&
              jsonWFObj ((k, v) :: kvs')) = true := hwf
          rw [Bool.and_eq_true] at hwfo
          obtain ⟨hnd, hwfe⟩ := hwfo
          have hszO : sizeObj ((k, v) :: kvs') ≤ f := by
            simp only [sizeV] at hsz
            omega
          obtain ⟨t2, hhead⟩ := dumpsObj_head k v kvs' (0x7D :: rest)
          show parseValue (f + 1)
            (0x7B :: ((dumpsObj ((k, v) :: kvs') ++ [0x7D]) ++ rest)) = _
          have hT : (dumpsObj ((k, v) :: kvs') ++ [0x7D]) ++ rest =
              dumpsObj ((k, v) :: kvs') ++ 0x7D :: rest := by simp
          rw [hT, parseValue_obj f _ 0x22 t2 (by decide)
              (by rw [hhead]; exact skipWs_cons _ _ rfl),
            ← hhead, ihO k v kvs' rest hwfe hszO hns]
          show Except.ok (Json.obj (mkPyDict ((k, v) :: kvs')), rest) = _
          rw [mkPyDict_nodup _ hnd]
    · intro x xs rest hwfl hsz hns
      have hwfl2 : (jsonWF x && jsonWFList xs) = true := hwfl
      rw [Bool.and_eq_true] at hwfl2
      obtain ⟨hwx, hwxs⟩ := hwfl2
      cases xs with
      | nil =>
        have hszx : sizeV x ≤ f := by
          simp only [sizeArr] at hsz
          omega
        show parseArrLoop (f + 1) (dumpsV x ++ 0x5D :: rest) = _
        simp only [parseArrLoop]
        rw [ihV x (0x5D :: rest) hwx hszx rfl]
        rfl
      | cons y ys =>
        have hszx : sizeV x ≤ f := by
          have h1 := sizeV_pos y
          simp only [sizeArr] at hsz
          omega
        have hszys : sizeArr (y :: ys) ≤ f := by
          have h1 := sizeV_pos x
          simp only [sizeArr] at hsz ⊢
          omega
        have hwy2 : (jsonWF y && jsonWFList ys) = true := hwxs
        rw [Bool.and_eq_true] at hwy2
        obtain ⟨c, t2, hhead, hws, _, _⟩ :=
          dumpsArr_append_head y ys (0x5D :: rest) hwy2.1
        have hskipy : skipWs (dumpsArr (y :: ys) ++ 0x5D :: rest) =
            dumpsArr (y :: ys) ++ 0x5D :: rest := by
          rw [hhead]
          exact skipWs_cons c t2 hws
        have hv1 : parseValue f
            (dumpsV x ++ 0x2C :: 0x20 :: (dumpsArr (y :: ys) ++ 0x5D :: rest)) =
            .ok (x, 0x2C :: 0x20 :: (dumpsArr (y :: ys) ++ 0x5D :: rest)) :=
          ihV x _ hwx hszx rfl
        have ha1 := ihA y ys rest hwxs hszys hns
        show parseArrLoop (f + 1)
          ((dumpsV x ++ 0x2C :: 0x20 :: dumpsArr (y :: ys)) ++ 0x5D :: rest) = _
        have hT : (dumpsV x ++ 0x2C :: 0x20 :: dumpsArr (y :: ys)) ++ 0x5D :: rest =
            dumpsV x ++ 0x2C :: 0x20 :: (dumpsArr (y :: ys) ++ 0x5D :: rest) := by simp
        rw [hT]
        simp only [parseArrLoop]
        rw [hv1]
        show (fun p : List Json × PyStr => (x :: p.1, p.2)) <$>
          parseArrLoop f (skipWs (0x20 :: (dumpsArr (y :: ys) ++ 0x5D :: rest))) =
          Except.ok (x :: y :: ys, rest)
        rw [skipWs_space, hskipy, ha1]
        rfl
    · intro k v kvs rest hwfe hsz hns
      have hwfe2 : ((strWF k && jsonWF v) && jsonWFObj kvs) = true := hwfe
      rw [Bool.and_eq_true, Bool.and_eq_true] at hwfe2
      obtain ⟨⟨hwk, hwv⟩, hwkvs⟩ := hwfe2
      have hszv : sizeV v ≤ f := by
        simp only [sizeObj] at hsz
        omega
      obtain ⟨cv, tv, hveq, hvws, _, _⟩ := dumpsV_head v hwv
      cases kvs with
      | nil =>
        have hv1 : parseValue f (dumpsV v ++ 0x7D :: rest) = .ok (v, 0x7D :: rest) :=
          ihV v (0x7D :: rest) hwv hszv rfl
        have hskipv : skipWs (dumpsV v ++ 0x7D :: rest) = dumpsV v ++ 0x7D :: rest := by
          rw [hveq, List.cons_append]
          exact skipWs_cons cv _ hvws
        rw [dumpsObj_single_shape]
        simp only [parseObjLoop]
        rw [parseStringBody_escapeString k _ _ hwk (Nat.le_succ _)]
        show (match parseValue f (skipWs (0x20 :: (dumpsV v ++ 0x7D :: rest))) with
          | Except.error _ => (Except.error () : Except Unit (List (PyStr × Json) × PyStr))
          | Except.ok (vv, rr) =>
            match skipWs rr with
            | 0x7D :: r6 => Except.ok ([(k, vv)], r6)
            | 0x2C :: r6 =>
              match skipWs r6 with
              | 0x22 :: r8 =>
                (fun p : List (PyStr × Json) × PyStr => ((k, vv) :: p.1, p.2)) <$>
                  parseObjLoop f (0x22 :: r8)
              | _ => Except.error ()
            | _ => Except.error ()) = Except.ok ([(k, v)], rest)
        rw [skipWs_space, hskipv, hv1]
        rfl
      | cons kv2 kvs2 =>
        obtain ⟨k2, v2⟩ := kv2
        have hszo2 : sizeObj ((k2, v2) :: kvs2) ≤ f := by
          have h1 := sizeV_pos v
          simp only [sizeObj] at hsz ⊢
          omega
        have hv1 : parseValue f (dumpsV v ++
            0x2C :: 0x20 :: (dumpsObj ((k2, v2) :: kvs2) ++ 0x7D :: rest)) =
            .ok (v, 0x2C :: 0x20 :: (dumpsObj ((k2, v2) :: kvs2) ++ 0x7D :: rest)) :=
          ihV v _ hwv hszv rfl
        have hskipv : skipWs (dumpsV v ++
            0x2C :: 0x20 :: (dumpsObj ((k2, v2) :: kvs2) ++ 0x7D :: rest)) =
            dumpsV v ++ 0x2C :: 0x20 :: (dumpsObj ((k2, v2) :: kvs2) ++ 0x7D :: rest) := by
          rw [hveq, List.cons_append]
          exact skipWs_cons cv _ hvws
        obtain ⟨t2, hhead2⟩ := dumpsObj_head k2 v2 kvs2 (0x7D :: rest)
        have ho1 := ihO k2 v2 kvs2 rest hwkvs hszo2 hns
        rw [dumpsObj_cons2_shape]
        simp only [parseObjLoop]
        rw [parseStringBody_escapeString k _ _ hwk (Nat.le_succ _)]
        show (match parseValue f (skipWs (0x20 :: (dumpsV v ++
            0x2C :: 0x20 :: (dumpsObj ((k2, v2) :: kvs2) ++ 0x7D :: rest)))) with
          | Except.error _ => (Except.error () : Except Unit (List (PyStr × Json) × PyStr))
          | Except.ok (vv, rr) =>
            match skipWs rr with
            | 0x7D :: r6 => Except.ok ([(k, vv)], r6)
            | 0x2C :: r6 =>
              match skipWs r6 with
              | 0x22 :: r8 =>
                (fun p : List (PyStr × Json) × PyStr => ((k, vv) :: p.1, p.2)) <$>
                  parseObjLoop f (0x22 :: r8)
              | _ => Except.error ()
            | _ => Except.error ()) = Except.ok ((k, v) :: (k2, v2) :: kvs2, rest)
        rw [skipWs_space, hskipv, hv1]
        show (match skipWs (0x20 :: (dumpsObj ((k2, v2) :: kvs2) ++ 0x7D :: rest)) with
          | 0x22 :: r8 =>
            (fun p : List (PyStr × Json) × PyStr => ((k, v) :: p.1, p.2)) <$>
              parseObjLoop f (0x22 :: r8)
          | _ => (Except.error () : Except Unit (List (PyStr × Json) × PyStr))) =
          Except.ok ((k, v) :: (k2, v2) :: kvs2, rest)
        rw [skipWs_space, hhead2]
        show (fun p : List (PyStr × Json) × PyStr => ((k, v) :: p.1, p.2)) <$>
          parseObjLoop f (0x22 :: t2) = Except.ok ((k, v) :: (k2, v2) :: kvs2, rest)
        rw [← hhead2, ho1]
        rfl

/-- C6: `get_agent` returns `None` when the owner lookup fails; for an
existing agent whose URI call fails or returns the empty string it returns a
record with `token_uri` and `metadata` both absent while `owner`, `agent_id`
and `explorer_url` are populated; once the owner is known the call cannot
fail, and a failing data-URI parse or a failing HTTP fetch only leaves
`metadata` absent. -/
theorem get_agent_spec (aid : Int) (explorer reg owner errA errB : String)
    (ownerOf tokenURI : Int → Except String String) (httpGet : String → Except String Json) :
    (ownerOf aid = .error errA →
      get_agent (.int aid) explorer reg ownerOf tokenURI httpGet = .ok none) ∧
    (ownerOf aid = .ok owner → (tokenURI aid = .error errB ∨ tokenURI aid = .ok "") →
      get_agent (.int aid) explorer reg ownerOf tokenURI httpGet =
        .ok (some { agent_id := aid, token_uri := none, owner := owner, metadata := none,
                    explorer_url := explorer ++ "/nft/" ++ reg ++ "/" ++ toString aid })) ∧
    (∀ uri, ownerOf aid = .ok owner → tokenURI aid = .ok uri → uri ≠ "" →
      resolveMetadata uri httpGet = none →
      get_agent (.int aid) explorer reg ownerOf tokenURI httpGet =
        .ok (some { agent_id := aid, token_uri := some uri, owner := owner, metadata := none,
                    explorer_url := explorer ++ "/nft/" ++ reg ++ "/" ++ toString aid })) ∧
    (∀ uri : String, ("data:application/json;base64,").isPrefixOf uri = true →
      (∀ j, parse_data_uri (strToPy uri) ≠ .ok j) →
      resolveMetadata uri httpGet = none) ∧
    (∀ uri e : String, ("data:application/json;base64,").isPrefixOf uri = false →
      (("http").isPrefixOf uri = true ∨ ("ipfs://").isPrefixOf uri = true) →
      (∀ u, httpGet u = .error e) →
      resolveMetadata uri httpGet = none) := by
  refine ⟨?_, ?_, ?_, ?_, ?_⟩
  · intro h1
    simp only [get_agent, pyIntOf]
    rw [h1]
  · intro h1 h2
    simp only [get_agent, pyIntOf]
    rw [h1]
    rcases h2 with h2 | h2
    · rw [h2]
    · rw [h2]
      simp
  · intro uri h1 h2 hne hmeta
    simp only [get_agent, pyIntOf]
    rw [h1, h2]
    simp [hne, hmeta]
  · intro uri hpfx hfail
    simp only [resolveMetadata, hpfx, if_true]
    cases hp : parse_data_uri (strToPy uri) with
    | ok j => exact absurd hp (hfail j)
    | error _ => rfl
  · intro uri e hpfx hscheme hfail
    simp only [resolveMetadata, hpfx, Bool.false_eq_true, if_false]
    rw [if_pos hscheme]
    simp only [hfail]

/-- Witness for C6: an existing agent whose `tokenURI` call reverts yields a
record with `token_uri` and `metadata` absent. -/
theorem get_agent_spec_witness :
    get_agent (.int 7) "https://etherscan.io" "0xREG" (fun _ => .ok "0xOWNER")
        (fun _ => .error "execution reverted") (fun _ => .error "offline") =
      .ok (some { agent_id := 7, token_uri := none, owner := "0xOWNER", metadata := none,
                  explorer_url := "https://etherscan.io" ++ "/nft/" ++ "0xREG" ++ "/" ++
                    toString (7 : Int) }) :=
  (get_agent_spec 7 "https://etherscan.io" "0xREG" "0xOWNER" "" "execution reverted"
      (fun _ => .ok "0xOWNER") (fun _ => .error "execution reverted")
      (fun _ => .error "offline")).2.1 rfl (Or.inl rfl)

/-! ### ASCII output of the serializer (`ensure_ascii=True`) -/

/-- Hex digit characters are ASCII. -/
theorem hexDigitChar_ascii (v : Nat) (h : v < 16) : hexDigitChar v < 128 := by
  unfold hexDigitChar
  split <;> omega

/-- Every character of a `\uXXXX` escape body is ASCII. -/
theorem hex4Chars_ascii (c : Nat) : ∀ d ∈ hex4Chars c, d < 128 := by
  intro d hd
  simp only [hex4Chars, List.mem_cons, List.not_mem_nil, or_false] at hd
  rcases hd with rfl | rfl | rfl | rfl <;>
    exact hexDigitChar_ascii _ (Nat.mod_lt _ (by omega))

/-- Every character `escapeChar` produces is ASCII. -/
theorem escapeChar_ascii (c : Nat) : ∀ d ∈ escapeChar c, d < 128 := by
  intro d hd
  by_cases h1 : c = 0x22
  · subst h1
    exact (by decide : ∀ x ∈ escapeChar 0x22, x < 128) d hd
  by_cases h2 : c = 0x5C
  · subst h2
    exact (by decide : ∀ x ∈ escapeChar 0x5C, x < 128) d hd
  by_cases h3 : c = 0x08
  · subst h3
    exact (by decide : ∀ x ∈ escapeChar 0x08, x < 128) d hd
  by_cases h4 : c = 0x09
  · subst h4
    exact (by decide : ∀ x ∈ escapeChar 0x09, x < 128) d hd
  by_cases h5 : c = 0x0A
  · subst h5
    exact (by decide : ∀ x ∈ escapeChar 0x0A, x < 128) d hd
  by_cases h6 : c = 0x0C
  · subst h6
    exact (by decide : ∀ x ∈ escapeChar 0x0C, x < 128) d hd
  by_cases h7 : c = 0x0D
  · subst h7
    exact (by decide : ∀ x ∈ escapeChar 0x0D, x < 128) d hd
  by_cases h8 : c < 0x20
  · have e : escapeChar c = 0x5C :: 0x75 :: hex4Chars c := by
      unfold escapeChar
      rw [if_neg h1, if_neg h2, if_neg h3, if_neg h4, if_neg h5, if_neg h6, if_neg h7,
        if_pos h8]
    rw [e] at hd
    rcases List.mem_cons.mp hd with rfl | hd2
    · omega
    rcases List.mem_cons.mp hd2 with rfl | hd3
    · omega
    · exact hex4Chars_ascii c d hd3
  by_cases h9 : c ≤ 0x7E
  · have e : escapeChar c = [c] := by
      unfold escapeChar
      rw [if_neg h1, if_neg h2, if_neg h3, if_neg h4, if_neg h5, if_neg h6, if_neg h7,
        if_neg h8, if_pos h9]
    rw [e] at hd
    rcases List.mem_cons.mp hd with rfl | hd2
    · omega
    · exact absurd hd2 (List.not_mem_nil d)
  by_cases h10 : c < 0x10000
  · have e : escapeChar c = 0x5C :: 0x75 :: hex4Chars c := by
      unfold escapeChar
      rw [if_neg h1, if_neg h2, if_neg h3, if_neg h4, if_neg h5, if_neg h6, if_neg h7,
        if_neg h8, if_neg h9, if_pos h10]
    rw [e] at hd
    rcases List.mem_cons.mp hd with rfl | hd2
    · omega
    rcases List.mem_cons.mp hd2 with rfl | hd3
    · omega
    · exact hex4Chars_ascii c d hd3
  · have e : escapeChar c =
        0x5C :: 0x75 :: hex4Chars (0xD800 + (c - 0x10000) / 1024) ++
          (0x5C :: 0x75 :: hex4Chars (0xDC00 + (c - 0x10000) % 1024)) := by
      unfold escapeChar
      rw [if_neg h1, if_neg h2, if_neg h3, if_neg h4, if_neg h5, if_neg h6, if_neg h7,
        if_neg h8, if_neg h9, if_neg h10]
    rw [e] at hd
    rcases List.mem_cons.mp hd with rfl | hd2
    · omega
    rcases List.mem_cons.mp hd2 with rfl | hd3
    · omega
    rcases List.mem_append.mp hd3 with hd4 | hd4
    · exact hex4Chars_ascii _ d hd4
    rcases List.mem_cons.mp hd4 with rfl | hd5
    · omega
    rcases List.mem_cons.mp hd5 with rfl | hd6
    · omega
    · exact hex4Chars_ascii _ d hd6

/-- Every character of an escaped string body is ASCII. -/
theorem escapeString_ascii (s : PyStr) : ∀ d ∈ escapeString s, d < 128 := by
  intro d hd
  simp only [escapeString, List.mem_flatten, List.mem_map] at hd
  obtain ⟨l, ⟨c, _, rfl⟩, hdl⟩ := hd
  exact escapeChar_ascii c d hdl

/-- Decimal digit characters are ASCII. -/
theorem natRepr_ascii (n : Nat) : ∀ d ∈ natRepr n, d < 128 := by
  intro d hd
  have h := natRepr_all_digits n d hd
  simp only [isDigitC, Bool.and_eq_true, decide_eq_true_eq] at h
  omega

/-- The serialized form of an integer is ASCII. -/
theorem intRepr_ascii (n : Int) : ∀ d ∈ intRepr n, d < 128 := by
  intro d hd
  unfold intRepr at hd
  split at hd
  · rcases List.mem_cons.mp hd with rfl | h
    · omega
    · exact natRepr_ascii _ d h
  · exact natRepr_ascii _ d hd

/-- `json.dumps` with `ensure_ascii=True` emits only ASCII characters, for
well-formed values, array bodies and object bodies alike. -/
theorem dumps_ascii (fuel : Nat) :
    (∀ m, jsonWF m = true → sizeV m ≤ fuel → ∀ d ∈ dumpsV m, d < 128) ∧
    (∀ xs, jsonWFList xs = true → sizeArr xs ≤ fuel → ∀ d ∈ dumpsArr xs, d < 128) ∧
    (∀ kvs, jsonWFObj kvs = true → sizeObj kvs ≤ fuel → ∀ d ∈ dumpsObj kvs, d < 128) := by
  induction fuel with
  | zero =>
    refine ⟨?_, ?_, ?_⟩
    · intro m _ hsz
      exact absurd hsz (by have := sizeV_pos m; omega)
    · intro xs _ hsz d hd
      cases xs with
      | nil => simp [dumpsArr] at hd
      | cons x xs2 =>
        exact absurd hsz (by simp only [sizeArr]; have := sizeV_pos x; omega)
    · intro kvs _ hsz d hd
      cases kvs with
      | nil => simp [dumpsObj] at hd
      | cons kv kvs2 =>
        obtain ⟨k, v⟩ := kv
        exact absurd hsz (by simp only [sizeObj]; have := sizeV_pos v; omega)
  | succ f ih =>
    obtain ⟨ihV, ihA, ihO⟩ := ih
    refine ⟨?_, ?_, ?_⟩
    · intro m hwf hsz d hd
      cases m with
      | null =>
        exact (by decide : ∀ x ∈ dumpsV Json.null, x < 128) d hd
      | bool b =>
        cases b with
        | true => exact (by decide : ∀ x ∈ dumpsV (Json.bool true), x < 128) d hd
        | false => exact (by decide : ∀ x ∈ dumpsV (Json.bool false), x < 128) d hd
      | int n =>
        simp only [dumpsV] at hd
        exact intRepr_ascii n d hd
      | float lit => simp [jsonWF] at hwf
      | str s =>
        simp only [dumpsV] at hd
        rcases List.mem_cons.mp hd with rfl | h2
        · omega
        rcases List.mem_append.mp h2 with h3 | h3
        · exact escapeString_ascii s d h3
        rcases List.mem_cons.mp h3 with rfl | h4
        · omega
        · exact absurd h4 (List.not_mem_nil d)
      | arr xs =>
        have hwfl : jsonWFList xs = true := hwf
        simp only [sizeV] at hsz
        simp only [dumpsV] at hd
        rcases List.mem_cons.mp hd with rfl | h2
        · omega
        rcases List.mem_append.mp h2 with h3 | h3
        · exact ihA xs hwfl (by omega) d h3
        rcases List.mem_cons.mp h3 with rfl | h4
        · omega
        · exact absurd h4 (List.not_mem_nil d)
      | obj kvs =>
        have hwfo : (nodupKeysB (kvs.map Prod.fst) && jsonWFObj kvs) = true := hwf
        rw [Bool.and_eq_true] at hwfo
        simp only [sizeV] at hsz
        simp only [dumpsV] at hd
        rcases List.mem_cons.mp hd with rfl | h2
        · omega
        rcases List.mem_append.mp h2 with h3 | h3
        · exact ihO kvs hwfo.2 (by omega) d h3
        rcases List.mem_cons.mp h3 with rfl | h4
        · omega
        · exact absurd h4 (List.not_mem_nil d)
    · intro xs hwf hsz d hd
      cases xs with
      | nil => simp [dumpsArr] at hd
      | cons x xs2 =>
        have hwf2 : (jsonWF x && jsonWFList xs2) = true := hwf
        rw [Bool.and_eq_true] at hwf2
        cases xs2 with
        | nil =>
          simp only [dumpsArr] at hd
          simp only [sizeArr] at hsz
          exact ihV x hwf2.1 (by omega) d hd
        | cons y ys =>
          have h0 := sizeV_pos x
          simp only [sizeArr] at hsz
          simp only [dumpsArr] at hd
          rcases List.mem_append.mp hd with h3 | h3
          · exact ihV x hwf2.1 (by omega) d h3
          rcases List.mem_cons.mp h3 with rfl | h4
          · omega
          rcases List.mem_cons.mp h4 with rfl | h5
          · omega
          · exact ihA (y :: ys) hwf2.2 (by simp only [sizeArr]; omega) d h5
    · intro kvs hwf hsz d hd
      cases kvs with
      | nil => simp [dumpsObj] at hd
      | cons kv kvs2 =>
        obtain ⟨k, v⟩ := kv
        have hwf2 : ((strWF k && jsonWF v) && jsonWFObj kvs2) = true := hwf
        rw [Bool.and_eq_true, Bool.and_eq_true] at hwf2
        obtain ⟨⟨hwk, hwv⟩, hwkvs⟩ := hwf2
        cases kvs2 with
        | nil =>
          simp only [sizeObj] at hsz
          simp only [dumpsObj] at hd
          rcases List.mem_cons.mp hd with rfl | h2
          · omega
          rcases List.mem_append.mp h2 with h3 | h3
          · exact escapeString_ascii k d h3
          rcases List.mem_cons.mp h3 with rfl | h4
          · omega
          rcases List.mem_cons.mp h4 with rfl | h5
          · omega
          rcases List.mem_cons.mp h5 with rfl | h6
          · omega
          · exact ihV v hwv (by omega) d h6
        | cons e kvs3 =>
          have h0 := sizeV_pos v
          simp only [sizeObj] at hsz
          simp only [dumpsObj] at hd
          rcases List.mem_append.mp hd with h2 | h2
          · rcases List.mem_cons.mp h2 with rfl | h3
            · omega
            rcases List.mem_append.mp h3 with h4 | h4
            · exact escapeString_ascii k d h4
            rcases List.mem_cons.mp h4 with rfl | h5
            · omega
            rcases List.mem_cons.mp h5 with rfl | h6
            · omega
            rcases List.mem_cons.mp h6 with rfl | h7
            · omega
            · exact ihV v hwv (by omega) d h7
          · rcases List.mem_cons.mp h2 with rfl | h3
            · omega
            rcases List.mem_cons.mp h3 with rfl | h4
            · omega
            · exact ihO (e :: kvs3) hwkvs (by simp only [sizeObj]; omega) d h4

/-- The parser fuel measure of a well-formed value is bounded by the length
of its serialization. -/
theorem dumps_length (fuel : Nat) :
    (∀ m, jsonWF m = true → sizeV m ≤ fuel → sizeV m ≤ (dumpsV m).length) ∧
    (∀ xs, jsonWFList xs = true → sizeArr xs ≤ fuel →
      sizeArr xs ≤ (dumpsArr xs).length + 1) ∧
    (∀ kvs, jsonWFObj kvs = true → sizeObj kvs ≤ fuel →
      sizeObj kvs ≤ (dumpsObj kvs).length + 1) := by
  induction fuel with
  | zero =>
    refine ⟨?_, ?_, ?_⟩
    · intro m _ hsz
      exact absurd hsz (by have := sizeV_pos m; omega)
    · intro xs _ hsz
      cases xs with
      | nil => decide
      | cons x xs2 =>
        exact absurd hsz (by simp only [sizeArr]; have := sizeV_pos x; omega)
    · intro kvs _ hsz
      cases kvs with
      | nil => decide
      | cons kv kvs2 =>
        obtain ⟨k, v⟩ := kv
        exact absurd hsz (by simp only [sizeObj]; have := sizeV_pos v; omega)
  | succ f ih =>
    obtain ⟨ihV, ihA, ihO⟩ := ih
    refine ⟨?_, ?_, ?_⟩
    · intro m hwf hsz
      cases m with
      | null => decide
      | bool b => cases b <;> decide
      | int n =>
        obtain ⟨c, t, heq, _⟩ := intRepr_head n
        show 1 ≤ (intRepr n).length
        rw [heq]
        simp
      | float lit => simp [jsonWF] at hwf
      | str s =>
        show 1 ≤ (0x22 :: (escapeString s ++ [0x22])).length
        simp
      | arr xs =>
        cases xs with
        | nil => decide
        | cons x xs2 =>
          have hwfl : jsonWFList (x :: xs2) = true := hwf
          simp only [sizeV] at hsz ⊢
          have hA := ihA (x :: xs2) hwfl (by omega)
          show 1 + sizeArr (x :: xs2) ≤ (0x5B :: (dumpsArr (x :: xs2) ++ [0x5D])).length
          simp only [List.length_cons, List.length_append]
          omega
      | obj kvs =>
        cases kvs with
        | nil => decide
        | cons kv kvs2 =>
          have hwfo : (nodupKeysB ((kv :: kvs2).map Prod.fst) &&
              jsonWFObj (kv :: kvs2)) = true := hwf
          rw [Bool.and_eq_true] at hwfo
          simp only [sizeV] at hsz ⊢
          have hO := ihO (kv :: kvs2) hwfo.2 (by omega)
          show 1 + sizeObj (kv :: kvs2) ≤ (0x7B :: (dumpsObj (kv :: kvs2) ++ [0x7D])).length
          simp only [List.length_cons, List.length_append]
          omega
    · intro xs hwf hsz
      cases xs with
      | nil => decide
      | cons x xs2 =>
        have hwf2 : (jsonWF x && jsonWFList xs2) = true := hwf
        rw [Bool.and_eq_true] at hwf2
        cases xs2 with
        | nil =>
          simp only [sizeArr] at hsz ⊢
          have hV := ihV x hwf2.1 (by omega)
          show 1 + sizeV x + 0 ≤ (dumpsV x).length + 1
          omega
        | cons y ys =>
          have h0 := sizeV_pos x
          have h1 := sizeV_pos y
          simp only [sizeArr] at hsz ⊢
          have hV := ihV x hwf2.1 (by omega)
          have hA := ihA (y :: ys) hwf2.2 (by simp only [sizeArr]; omega)
          simp only [sizeArr] at hA
          show 1 + sizeV x + (1 + sizeV y + sizeArr ys) ≤
            (dumpsV x ++ 0x2C :: 0x20 :: dumpsArr (y :: ys)).length + 1
          simp only [List.length_append, List.length_cons]
          have hA2 : 1 + sizeV y + sizeArr ys ≤ (dumpsArr (y :: ys)).length + 1 := hA
          omega
    · intro kvs hwf hsz
      cases kvs with
      | nil => decide
      | cons kv kvs2 =>
        obtain ⟨k, v⟩ := kv
        have hwf2 : ((strWF k && jsonWF v) && jsonWFObj kvs2) = true := hwf
        rw [Bool.and_eq_true, Bool.and_eq_true] at hwf2
        obtain ⟨⟨hwk, hwv⟩, hwkvs⟩ := hwf2
        cases kvs2 with
        | nil =>
          simp only [sizeObj] at hsz ⊢
          have hV := ihV v hwv (by omega)
          show 1 + sizeV v + 0 ≤
            (0x22 :: (escapeString k ++ 0x22 :: 0x3A :: 0x20 :: dumpsV v)).length + 1
          simp only [List.length_cons, List.length_append]
          omega
        | cons e kvs3 =>
          have h0 := sizeV_pos v
          simp only [sizeObj] at hsz ⊢
          have hV := ihV v hwv (by omega)
          have hO := ihO (e :: kvs3) hwkvs (by simp only [sizeObj]; omega)
          show 1 + sizeV v + sizeObj (e :: kvs3) ≤
            ((0x22 :: escapeString k ++ 0x22 :: 0x3A :: 0x20 :: dumpsV v) ++
              0x2C :: 0x20 :: dumpsObj (e :: kvs3)).length + 1
          simp only [List.length_append, List.length_cons]
          simp only [sizeObj] at hO ⊢
          omega

/-- The fuel `loads` supplies is always enough for the serialization of a
well-formed value. -/
theorem sizeV_le_dumps_length (m : Json) (hwf : jsonWF m = true) :
    sizeV m ≤ (dumpsV m).length :=
  (dumps_length (sizeV m)).1 m hwf le_rfl

/-- `json.loads` inverts `json.dumps` on well-formed values. -/
theorem loads_dumps (m : Json) (h : jsonWF m = true) : loads (dumpsV m) = Except.ok m := by
  obtain ⟨c, t, heq, hws, _, _⟩ := dumpsV_head m h
  have hskip : skipWs (dumpsV m) = dumpsV m := by
    rw [heq]
    exact skipWs_cons c t hws
  have hval : parseValue ((dumpsV m).length + 1) (dumpsV m) = Except.ok (m, []) := by
    have hp := (parse_dumps ((dumpsV m).length + 1)).1 m [] h
      (Nat.le_succ_of_le (sizeV_le_dumps_length m h)) rfl
    rwa [List.append_nil] at hp
  have hred : loads (dumpsV m) =
      (match parseValue ((skipWs (dumpsV m)).length + 1) (skipWs (dumpsV m)) with
        | .error _ => (.error () : Except Unit Json)
        | .ok (v, rest) => if skipWs rest = [] then .ok v else .error ()) := rfl
  rw [hred, hskip, hval]
  rfl

/-! ### UTF-8 on ASCII text -/

/-- UTF-8 encoding is the identity on ASCII text. -/
theorem utf8Encode_ascii (s : PyStr) (h : ∀ c ∈ s, c < 128) : utf8Encode s = s := by
  induction s with
  | nil => rfl
  | cons c t ih =>
    have hc : c < 128 := h c (List.mem_cons_self c t)
    have ht := ih (fun x hx => h x (List.mem_cons_of_mem c hx))
    simp only [utf8Encode, List.map_cons, List.flatten_cons]
    simp only [utf8Encode] at ht
    rw [utf8EncodeChar, if_pos hc, ht]
    rfl

/-- Step of the UTF-8 decoder on a leading ASCII byte. -/
theorem utf8Decode_cons_lt (f c : Nat) (t : List Nat) (hc : c < 0x80) :
    utf8Decode (f + 1) (c :: t) = (fun x => c :: x) <$> utf8Decode f t := by
  have hred : utf8Decode (f + 1) (c :: t) =
      (if c < 0x80 then (fun x => c :: x) <$> utf8Decode f t
       else if 0xC2 ≤ c && c ≤ 0xDF then
         match t with
         | b2 :: rest2 =>
           if isCont b2 then
             (fun x => ((c - 0xC0) * 64 + (b2 - 0x80)) :: x) <$> utf8Decode f rest2
           else .error ()
         | _ => .error ()
       else if 0xE0 ≤ c && c ≤ 0xEF then
         match t with
         | b2 :: b3 :: rest2 =>
           if utf8Cont3Ok c b2 && isCont b3 then
             (fun x => ((c - 0xE0) * 4096 + (b2 - 0x80) * 64 + (b3 - 0x80)) :: x) <$>
               utf8Decode f rest2
           else .error ()
         | _ => .error ()
       else if 0xF0 ≤ c && c ≤ 0xF4 then
         match t with
         | b2 :: b3 :: b4 :: rest2 =>
           if utf8Cont4Ok c b2 && isCont b3 && isCont b4 then
             (fun x =>
               ((c - 0xF0) * 0x40000 + (b2 - 0x80) * 4096 + (b3 - 0x80) * 64 +
                 (b4 - 0x80)) :: x) <$>
               utf8Decode f rest2
           else .error ()
         | _ => .error ()
       else .error ()) := rfl
  rw [hred, if_pos hc]

/-- Strict UTF-8 decoding recovers ASCII text byte for byte. -/
theorem utf8Decode_ascii (fuel : Nat) :
    ∀ s : PyStr, s.length < fuel → (∀ c ∈ s, c < 128) → utf8Decode fuel s = Except.ok s := by
  induction fuel with
  | zero =>
    intro s hl _
    omega
  | succ f ih =>
    intro s hl h
    cases s with
    | nil => rfl
    | cons c t =>
      have hc : c < 128 := h c (List.mem_cons_self c t)
      have hlt : t.length < f := by
        simp only [List.length_cons] at hl
        omega
      have ht := ih t hlt (fun x hx => h x (List.mem_cons_of_mem c hx))
      rw [utf8Decode_cons_lt f c t hc, ht]
      rfl

/-! ### Base64 round-trip -/

/-- Encoding a six-bit value lands in the base64 alphabet. -/
theorem b64CharEncode_alpha : ∀ v, v < 64 → isB64AlphaC (b64CharEncode v) = true := by
  decide

/-- Decoding inverts encoding on six-bit values. -/
theorem b64CharDecode_encode : ∀ v, v < 64 → b64CharDecode (b64CharEncode v) = v := by
  decide

/-- No alphabet character is the padding character. -/
theorem isB64AlphaC_ne_pad (c : Nat) (h : isB64AlphaC c = true) : c ≠ 0x3D := by
  intro hc
  subst hc
  exact absurd h (by decide)

/-- Step of the quad machine on a data character with an empty quad. -/
theorem b64Aux_step0 (f c : Nat) (rest : PyStr) (ha : isB64AlphaC c = true) :
    b64Aux (f + 1) (c :: rest) [] 0 = b64Aux f rest [b64CharDecode c] 0 := by
  have hne : c ≠ 0x3D := isB64AlphaC_ne_pad c ha
  have hred : b64Aux (f + 1) (c :: rest) [] 0 =
      (if c = 0x3D then b64Aux f rest [] 0
       else if isB64AlphaC c then b64Aux f rest [b64CharDecode c] 0
       else b64Aux f rest [] 0) := rfl
  rw [hred, if_neg hne, ha]
  rfl

/-- Step of the quad machine on a data character with one value held. -/
theorem b64Aux_step1 (f c w : Nat) (rest : PyStr) (ha : isB64AlphaC c = true) :
    b64Aux (f + 1) (c :: rest) [w] 0 = b64Aux f rest [w, b64CharDecode c] 0 := by
  have hne : c ≠ 0x3D := isB64AlphaC_ne_pad c ha
  have hred : b64Aux (f + 1) (c :: rest) [w] 0 =
      (if c = 0x3D then b64Aux f rest [w] 0
       else if isB64AlphaC c then b64Aux f rest [w, b64CharDecode c] 0
       else b64Aux f rest [w] 0) := rfl
  rw [hred, if_neg hne, ha]
  rfl

/-- Step of the quad machine on a data character with two values held. -/
theorem b64Aux_step2 (f c w x : Nat) (rest : PyStr) (ha : isB64AlphaC c = true) :
    b64Aux (f + 1) (c :: rest) [w, x] 0 = b64Aux f rest [w, x, b64CharDecode c] 0 := by
  have hne : c ≠ 0x3D := isB64AlphaC_ne_pad c ha
  have hred : b64Aux (f + 1) (c :: rest) [w, x] 0 =
      (if c = 0x3D then
        if 4 ≤ 2 + (0 + 1) then .ok (b64Flush [w, x]) else b64Aux f rest [w, x] 1
       else if isB64AlphaC c then b64Aux f rest [w, x, b64CharDecode c] 0
       else b64Aux f rest [w, x] 0) := rfl
  rw [hred, if_neg hne, ha]
  rfl

/-- A data character completing a quad emits its three bytes. -/
theorem b64Aux_step3 (f c w x y : Nat) (rest : PyStr) (ha : isB64AlphaC c = true) :
    b64Aux (f + 1) (c :: rest) [w, x, y] 0 =
      (fun out => (w * 4 + x / 16) :: (x % 16 * 16 + y / 4) ::
        (y % 4 * 64 + b64CharDecode c) :: out) <$> b64Aux f rest [] 0 := by
  have hne : c ≠ 0x3D := isB64AlphaC_ne_pad c ha
  have hred : b64Aux (f + 1) (c :: rest) [w, x, y] 0 =
      (if c = 0x3D then .ok (b64Flush [w, x, y])
       else if isB64AlphaC c then
        (fun out => (w * 4 + x / 16) :: (x % 16 * 16 + y / 4) ::
          (y % 4 * 64 + b64CharDecode c) :: out) <$> b64Aux f rest [] 0
       else b64Aux f rest [w, x, y] 0) := rfl
  rw [hred, if_neg hne, ha]
  rfl

/-- A first padding character after two data characters is only counted. -/
theorem b64Aux_pad2a (f : Nat) (rest : PyStr) (w x : Nat) :
    b64Aux (f + 1) (0x3D :: rest) [w, x] 0 = b64Aux f rest [w, x] 1 := rfl

/-- A second padding character after two data characters ends decoding with
the one byte already implied, discarding the remaining input. -/
theorem b64Aux_pad2b (f : Nat) (rest : PyStr) (w x : Nat) :
    b64Aux (f + 1) (0x3D :: rest) [w, x] 1 = .ok [w * 4 + x / 16] := rfl

/-- A padding character after three data characters ends decoding with the
two bytes already implied, discarding the remaining input. -/
theorem b64Aux_pad3 (f : Nat) (rest : PyStr) (w x y : Nat) :
    b64Aux (f + 1) (0x3D :: rest) [w, x, y] 0 =
      .ok [w * 4 + x / 16, x % 16 * 16 + y / 4] := rfl

/-- The quad machine decodes an encoded byte string back to it, for every
sufficient fuel. -/
theorem b64Aux_encode (fuel : Nat) : ∀ bs : List Nat, bs.length ≤ fuel →
    (∀ b ∈ bs, b < 256) →
    ∀ g, b64Aux (g + (b64encode bs).length + 1) (b64encode bs) [] 0 = .ok bs := by
  induction fuel with
  | zero =>
    intro bs hlen _ g
    have hnil : bs = [] := List.eq_nil_of_length_eq_zero (Nat.le_zero.mp hlen)
    subst hnil
    rfl
  | succ f ih =>
    intro bs hlen hbs g
    rcases bs with _ | ⟨a, _ | ⟨b, _ | ⟨c, rest⟩⟩⟩
    · rfl
    · have ha : a < 256 := hbs a (List.mem_cons_self a [])
      have he : b64encode [a] = [b64CharEncode (a / 4), b64CharEncode (a % 4 * 16),
          0x3D, 0x3D] := rfl
      have hl : (b64encode [a]).length = 4 := rfl
      rw [hl, he, b64Aux_step0 _ _ _ (b64CharEncode_alpha _ (by omega)),
        show g + 4 = (g + 3) + 1 from rfl,
        b64Aux_step1 _ _ _ _ (b64CharEncode_alpha _ (by omega)),
        show g + 3 = (g + 2) + 1 from rfl, b64Aux_pad2a,
        show g + 2 = (g + 1) + 1 from rfl, b64Aux_pad2b,
        b64CharDecode_encode (a / 4) (by omega),
        b64CharDecode_encode (a % 4 * 16) (by omega)]
      have e1 : a / 4 * 4 + a % 4 * 16 / 16 = a := by omega
      rw [e1]
    · have ha : a < 256 := hbs a (by simp)
      have hb2 : b < 256 := hbs b (by simp)
      have he : b64encode [a, b] = [b64CharEncode (a / 4),
          b64CharEncode (a % 4 * 16 + b / 16), b64CharEncode (b % 16 * 4), 0x3D] := rfl
      have hl : (b64encode [a, b]).length = 4 := rfl
      rw [hl, he, b64Aux_step0 _ _ _ (b64CharEncode_alpha _ (by omega)),
        show g + 4 = (g + 3) + 1 from rfl,
        b64Aux_step1 _ _ _ _ (b64CharEncode_alpha _ (by omega)),
        show g + 3 = (g + 2) + 1 from rfl,
        b64Aux_step2 _ _ _ _ _ (b64CharEncode_alpha _ (by omega)),
        show g + 2 = (g + 1) + 1 from rfl, b64Aux_pad3,
        b64CharDecode_encode (a / 4) (by omega),
        b64CharDecode_encode (a % 4 * 16 + b / 16) (by omega),
        b64CharDecode_encode (b % 16 * 4) (by omega)]
      have e1 : a / 4 * 4 + (a % 4 * 16 + b / 16) / 16 = a := by omega
      have e2 : (a % 4 * 16 + b / 16) % 16 * 16 + b % 16 * 4 / 4 = b := by omega
      rw [e1, e2]
    · have ha : a < 256 := hbs a (by simp)
      have hb2 : b < 256 := hbs b (by simp)
      have hc2 : c < 256 := hbs c (by simp)
      have hrest : ∀ v ∈ rest, v < 256 := fun v hv => hbs v (by simp [hv])
      have hlen2 : rest.length ≤ f := by
        simp only [List.length_cons] at hlen
        omega
      have he : b64encode (a :: b :: c :: rest) = b64CharEncode (a / 4) ::
          b64CharEncode (a % 4 * 16 + b / 16) :: b64CharEncode (b % 16 * 4 + c / 64) ::
          b64CharEncode (c % 64) :: b64encode rest := rfl
      have hl : (b64encode (a :: b :: c :: rest)).length = (b64encode rest).length + 4 := by
        rw [he]
        simp
      rw [hl, he]
      have hf : g + ((b64encode rest).length + 4) + 1 =
          (g + (b64encode rest).length + 1 + 2 + 1) + 1 := by omega
      rw [hf, b64Aux_step0 _ _ _ (b64CharEncode_alpha _ (by omega)),
        b64Aux_step1 _ _ _ _ (b64CharEncode_alpha _ (by omega)),
        show g + (b64encode rest).length + 1 + 2 =
          (g + (b64encode rest).length + 1 + 1) + 1 from rfl,
        b64Aux_step2 _ _ _ _ _ (b64CharEncode_alpha _ (by omega)),
        b64Aux_step3 _ _ _ _ _ _ (b64CharEncode_alpha _ (by omega)),
        ih rest hlen2 hrest g,
        b64CharDecode_encode (a / 4) (by omega),
        b64CharDecode_encode (a % 4 * 16 + b / 16) (by omega),
        b64CharDecode_encode (b % 16 * 4 + c / 64) (by omega),
        b64CharDecode_encode (c % 64) (by omega)]
      have e1 : a / 4 * 4 + (a % 4 * 16 + b / 16) / 16 = a := by omega
      have e2 : (a % 4 * 16 + b / 16) % 16 * 16 + (b % 16 * 4 + c / 64) / 4 = b := by omega
      have e3 : (b % 16 * 4 + c / 64) % 4 * 64 + c % 64 = c := by omega
      rw [e1, e2, e3]
      rfl

/-- `base64.b64decode` inverts `base64.b64encode` on byte strings. -/
theorem b64_roundtrip (bs : List Nat) (hbs : ∀ b ∈ bs, b < 256) :
    b64decodePy (b64encode bs) = Except.ok bs := by
  have h := b64Aux_encode bs.length bs le_rfl hbs 0
  show b64Aux ((b64encode bs).length + 1) (b64encode bs) [] 0 = Except.ok bs
  have he : (0 : Nat) + (b64encode bs).length + 1 = (b64encode bs).length + 1 := by omega
  rwa [he] at h

/-- A list is a `isPrefixOf` of itself followed by anything. -/
theorem isPrefixOf_append_self : ∀ (p x : List Nat), p.isPrefixOf (p ++ x) = true := by
  intro p x
  induction p with
  | nil => cases x <;> rfl
  | cons a p ih =>
    show (a == a && p.isPrefixOf (p ++ x)) = true
    rw [ih]
    simp

/-- C2 (amended): the data-URI round-trip holds for every well-formed value
of the metadata universe — strings with code points below `0x110000` and no
adjacent high/low surrogate pair, objects with distinct keys, and integer
numbers: `parse_data_uri (create_data_uri m)` recovers `m` exactly. -/
theorem data_uri_roundtrip (m : Json) (h : jsonWF m = true) :
    parse_data_uri (create_data_uri m) = Except.ok m := by
  have hasc : ∀ d ∈ dumpsV m, d < 128 := (dumps_ascii (sizeV m)).1 m h le_rfl
  have henc : utf8Encode (dumpsV m) = dumpsV m := utf8Encode_ascii (dumpsV m) hasc
  have hbytes : ∀ b ∈ dumpsV m, b < 256 := by
    intro b hbm
    have := hasc b hbm
    omega
  have hb64 : b64decodePy (b64encode (utf8Encode (dumpsV m))) = Except.ok (dumpsV m) := by
    rw [henc]
    exact b64_roundtrip (dumpsV m) hbytes
  have hu : utf8Decode ((dumpsV m).length + 1) (dumpsV m) = Except.ok (dumpsV m) :=
    utf8Decode_ascii ((dumpsV m).length + 1) (dumpsV m) (Nat.lt_succ_self _) hasc
  have hl : loads (dumpsV m) = Except.ok m := loads_dumps m h
  simp only [create_data_uri, parse_data_uri, isPrefixOf_append_self, List.drop_left,
    hb64, hu, hl]
  rfl

/-- Witness for C2: a concrete well-formed value round-trips. -/
theorem data_uri_roundtrip_witness :
    jsonWF (Json.arr [Json.int 1]) = true ∧
    parse_data_uri (create_data_uri (Json.arr [Json.int 1])) =
      Except.ok (Json.arr [Json.int 1]) :=
  ⟨rfl, data_uri_roundtrip (Json.arr [Json.int 1]) rfl⟩

/-- Counterexample to C2 as stated: a string of two code points forming a
high/low surrogate pair does not round-trip — `json.dumps` escapes the two
code points separately and `json.loads` recombines the adjacent escapes into
the single astral code point `0x1D11E`. -/
theorem data_uri_roundtrip_counterexample :
    parse_data_uri (create_data_uri (Json.str [0xD834, 0xDD1E])) =
      Except.ok (Json.str [0x1D11E]) ∧
    Json.str [0x1D11E] ≠ Json.str [0xD834, 0xDD1E] := by
  refine ⟨rfl, ?_⟩
  intro h
  injection h with h2
  exact absurd h2 (by decide)

end ERC8004
